import Mathlib

/-!
Verification of the `plex-overseerr-backup` tool (`plex_overseerr_backup.py`)
against its natural-language specification.

The Python source is shallowly embedded:
* JSON documents and the progress ledger become association lists that keep
  Python-dict insertion order (`assocSet` appends a fresh key, updates an
  existing one in place; `assocDel` removes the single entry for a key).
* `request_with_retry` becomes a pure function over the list of outcomes of the
  successive HTTP attempts (one outcome per attempt actually made).
* `restore_to_overseerr` becomes a state-passing fold over the libraries of the
  loaded snapshot; the external world (live Plex episode queries, filesystem
  stat checks, Overseerr POST responses, the wall clock) is a record of
  functions supplied as an explicit environment.
-/

set_option maxHeartbeats 1000000

namespace POB

/-! ## Ordered association lists (Python `dict` as used by the tool) -/

/-- Lookup in an insertion-ordered association list (`d[k]` / `d.get(k)`). -/
def assocGet {α : Type} : List (String × α) → String → Option α
  | [], _ => none
  | (k2, v) :: rest, k => if k2 = k then some v else assocGet rest k

/-- `d[k] = v`: update in place when the key exists, else append (dict keys
are unique, so only the first hit is updated). -/
def assocSet {α : Type} : List (String × α) → String → α → List (String × α)
  | [], k, v => [(k, v)]
  | (k2, v2) :: rest, k, v =>
    if k2 = k then (k2, v) :: rest else (k2, v2) :: assocSet rest k v

/-- `del d[k]`: remove the entry for `k` (dict keys are unique). -/
def assocDel {α : Type} : List (String × α) → String → List (String × α)
  | [], _ => []
  | (k2, v2) :: rest, k => if k2 = k then rest else (k2, v2) :: assocDel rest k

/-- The keys of the dict, in insertion order. -/
def assocKeys {α : Type} (d : List (String × α)) : List String := d.map Prod.fst

/-! ## Checksum round trip (`export_library` lines 353-369,
`restore_to_overseerr` lines 404-423) -/

/-- JSON values as stored in a backup document. Only the top-level dict
structure matters for the checksum logic; nested payloads stay symbolic. -/
inductive JVal : Type where
  | str (s : String)
  | num (n : Int)
  | obj (fields : List (String × JVal))
  | arr (elems : List JVal)
  | boolean (b : Bool)
  | null

/-- The backup document built by `export_library` just before saving
(`backup_data = {...}`, lines 338-351): five fixed keys, no `checksum` yet. -/
def buildBackupData (exportedAt plexUrl version stats libraries : JVal) :
    List (String × JVal) :=
  [("exported_at", exportedAt), ("plex_url", plexUrl), ("version", version),
   ("stats", stats), ("libraries", libraries)]

/-- Result of the save step of `export_library`: the document that ends up in
the backup file, and the checksum that was embedded into it. -/
structure ExportedBackup : Type where
  fileDoc : List (String × JVal)
  checksum : String

/-- The save step of `export_library` (lines 353-366): write the document
without a checksum, hash the serialized bytes (`calculate_checksum`), add the
`checksum` key, and rewrite the file. `dump` stands for `json.dump(-, indent=2)`
on a document and `sha256` for the SHA-256 hex digest of the written bytes;
both are explicit parameters because the embedding does not re-implement
hashing, only the structure around it. -/
def export_library_save (dump : List (String × JVal) → String)
    (sha256 : String → String) (base : List (String × JVal)) : ExportedBackup :=
  let firstContents := dump base
  let checksum := sha256 firstContents
  ⟨assocSet base "checksum" (JVal.str checksum), checksum⟩

/-- The checksum verification at the top of `restore_to_overseerr`
(lines 404-423): if a `checksum` key is present, serialize the loaded document
with that key deleted, hash the bytes, and compare with the stored value.
Returns `true` when the check passes (or when there is nothing to check). -/
def restore_checksum_ok (dump : List (String × JVal) → String)
    (sha256 : String → String) (doc : List (String × JVal)) : Bool :=
  match assocGet doc "checksum" with
  | none => true
  | some (JVal.str stored) =>
    decide (sha256 (dump (assocDel doc "checksum")) = stored)
  | some _ => false

/-- Claim C7: for every snapshot written by `export_library`, the embedded
checksum equals the hash of the serialized document with the `checksum` field
removed, i.e. the quantity recomputed by the restore-side verification matches
the stored checksum immediately after building. -/
theorem C7_checksum_round_trip
    (dump : List (String × JVal) → String) (sha256 : String → String)
    (exportedAt plexUrl version stats libraries : JVal) :
    let base := buildBackupData exportedAt plexUrl version stats libraries
    let ex := export_library_save dump sha256 base
    restore_checksum_ok dump sha256 ex.fileDoc = true ∧
      ex.checksum = sha256 (dump (assocDel ex.fileDoc "checksum")) := by
  simp [buildBackupData, export_library_save, restore_checksum_ok,
    assocSet, assocDel, assocGet]

/-! ## `request_with_retry` (lines 59-112) -/

/-- Outcome of one actual HTTP attempt inside `request_with_retry`: either the
server answered (with a status code and an optional numeric `Retry-After`
header, `None` standing for an absent header so `headers.get('Retry-After',
60)` falls back to 60), or the attempt raised `Timeout` / `ConnectionError`. -/
inductive RWROutcome : Type where
  | resp (status : Nat) (retryAfter : Option Nat)
  | timeout
  | connError
deriving DecidableEq, Repr

/-- How `request_with_retry` ends: a returned response, a raised exception, or
the `UnboundLocalError` fall-through when `max_retries = 0` makes the loop body
never run (`return response` with `response` unassigned). -/
inductive RWRResult : Type where
  | returned (status : Nat) (retryAfter : Option Nat)
  | raisedTimeout
  | raisedConn
  | crashed
deriving DecidableEq, Repr

/-- Full account of a `request_with_retry` run: the result, the successive
`time.sleep` durations, and the number of HTTP attempts actually made. -/
structure RWRRun : Type where
  result : RWRResult
  waits : List Nat
  attempts : Nat
deriving DecidableEq, Repr

/-- The `for attempt in range(max_retries)` loop of `request_with_retry`.
The outcome list holds one entry per remaining loop iteration; `attempt` is the
current loop index (for the `5 * (attempt + 1)` backoff), `lastExn` mirrors
`last_exception`, `lastResp` the `response` variable. On a 429 the code sleeps
for `Retry-After` (default 60) and `continue`s; on a timeout or connection
error it sleeps and retries unless this was the last iteration, in which case
it re-raises; any other response is returned. Falling out of the loop re-raises
`last_exception` if set, else returns the last (429) response. -/
def rwrLoop : List RWROutcome → Nat → Option RWRResult →
    Option (Nat × Option Nat) → List Nat → Nat → RWRRun
  | [], _, lastExn, lastResp, waits, attempts =>
    match lastExn with
    | some e => ⟨e, waits, attempts⟩
    | none =>
      match lastResp with
      | some (s, ra) => ⟨RWRResult.returned s ra, waits, attempts⟩
      | none => ⟨RWRResult.crashed, waits, attempts⟩
  | o :: rest, attempt, lastExn, lastResp, waits, attempts =>
    match o with
    | RWROutcome.resp s ra =>
      if s = 429 then
        rwrLoop rest (attempt + 1) lastExn (some (s, ra))
          (waits ++ [ra.getD 60]) (attempts + 1)
      else ⟨RWRResult.returned s ra, waits, attempts + 1⟩
    | RWROutcome.timeout =>
      if rest.isEmpty then ⟨RWRResult.raisedTimeout, waits, attempts + 1⟩
      else rwrLoop rest (attempt + 1) (some RWRResult.raisedTimeout) lastResp
        (waits ++ [5 * (attempt + 1)]) (attempts + 1)
    | RWROutcome.connError =>
      if rest.isEmpty then ⟨RWRResult.raisedConn, waits, attempts + 1⟩
      else rwrLoop rest (attempt + 1) (some RWRResult.raisedConn) lastResp
        (waits ++ [5 * (attempt + 1)]) (attempts + 1)

/-- `request_with_retry`, as a function of the retry budget and of the outcome
each HTTP attempt would have (attempt index `i` yields `behavior i`). -/
def request_with_retry (maxRetries : Nat) (behavior : Nat → RWROutcome) :
    RWRRun :=
  rwrLoop ((List.range maxRetries).map behavior) 0 none none [] 0

/-- The attempt counter grows by at most the number of remaining iterations. -/
lemma rwrLoop_attempts_le (l : List RWROutcome) :
    ∀ a e r w n, (rwrLoop l a e r w n).attempts ≤ n + l.length := by
  induction l with
  | nil =>
    intro a e r w n
    cases e with
    | some e => simp [rwrLoop]
    | none =>
      cases r with
      | some p => cases p; simp [rwrLoop]
      | none => simp [rwrLoop]
  | cons o rest ih =>
    intro a e r w n
    cases o with
    | resp s ra =>
      by_cases hs : s = 429
      · simp only [rwrLoop, if_pos hs]
        have h := ih (a + 1) e (some (s, ra)) (w ++ [ra.getD 60]) (n + 1)
        simp only [List.length_cons]
        omega
      · simp only [rwrLoop, if_neg hs, List.length_cons]
        omega
    | timeout =>
      by_cases hrest : rest.isEmpty
      · simp only [rwrLoop, if_pos hrest, List.length_cons]
        omega
      · simp only [rwrLoop, if_neg hrest]
        have h := ih (a + 1) (some RWRResult.raisedTimeout) r
          (w ++ [5 * (a + 1)]) (n + 1)
        simp only [List.length_cons]
        omega
    | connError =>
      by_cases hrest : rest.isEmpty
      · simp only [rwrLoop, if_pos hrest, List.length_cons]
        omega
      · simp only [rwrLoop, if_neg hrest]
        have h := ih (a + 1) (some RWRResult.raisedConn) r
          (w ++ [5 * (a + 1)]) (n + 1)
        simp only [List.length_cons]
        omega

/-- As long as iterations remain, at least one more attempt is made. -/
lemma rwrLoop_attempts_ge (l : List RWROutcome) (hl : l ≠ []) :
    ∀ a e r w n, n + 1 ≤ (rwrLoop l a e r w n).attempts := by
  induction l with
  | nil => exact absurd rfl hl
  | cons o rest ih =>
    intro a e r w n
    have hmono : ∀ (l2 : List RWROutcome) a2 e2 r2 w2 n2,
        n2 ≤ (rwrLoop l2 a2 e2 r2 w2 n2).attempts := by
      intro l2
      induction l2 with
      | nil =>
        intro a2 e2 r2 w2 n2
        cases e2 with
        | some e2 => simp [rwrLoop]
        | none =>
          cases r2 with
          | some p => cases p; simp [rwrLoop]
          | none => simp [rwrLoop]
      | cons o2 rest2 ih2 =>
        intro a2 e2 r2 w2 n2
        cases o2 with
        | resp s ra =>
          by_cases hs : s = 429
          · simp only [rwrLoop, if_pos hs]
            calc n2 ≤ n2 + 1 := by omega
              _ ≤ _ := ih2 _ _ _ _ _
          · simp only [rwrLoop, if_neg hs]; simp
        | timeout =>
          by_cases hrest : rest2.isEmpty
          · simp only [rwrLoop, if_pos hrest]; simp
          · simp only [rwrLoop, if_neg hrest]
            calc n2 ≤ n2 + 1 := by omega
              _ ≤ _ := ih2 _ _ _ _ _
        | connError =>
          by_cases hrest : rest2.isEmpty
          · simp only [rwrLoop, if_pos hrest]; simp
          · simp only [rwrLoop, if_neg hrest]
            calc n2 ≤ n2 + 1 := by omega
              _ ≤ _ := ih2 _ _ _ _ _
    cases o with
    | resp s ra =>
      by_cases hs : s = 429
      · simp only [rwrLoop, if_pos hs]; exact hmono _ _ _ _ _ _
      · simp only [rwrLoop, if_neg hs]; omega
    | timeout =>
      by_cases hrest : rest.isEmpty
      · simp only [rwrLoop, if_pos hrest]; omega
      · simp only [rwrLoop, if_neg hrest]; exact hmono _ _ _ _ _ _
    | connError =>
      by_cases hrest : rest.isEmpty
      · simp only [rwrLoop, if_pos hrest]; omega
      · simp only [rwrLoop, if_neg hrest]; exact hmono _ _ _ _ _ _

/-- The sleep log only ever grows: whatever was already slept stays a prefix. -/
lemma rwrLoop_waits_prefix (l : List RWROutcome) :
    ∀ a e r w n, ∃ tail, (rwrLoop l a e r w n).waits = w ++ tail := by
  induction l with
  | nil =>
    intro a e r w n
    cases e with
    | some e => exact ⟨[], by simp [rwrLoop]⟩
    | none =>
      cases r with
      | some p => exact ⟨[], by cases p; simp [rwrLoop]⟩
      | none => exact ⟨[], by simp [rwrLoop]⟩
  | cons o rest ih =>
    intro a e r w n
    cases o with
    | resp s ra =>
      by_cases hs : s = 429
      · simp only [rwrLoop, if_pos hs]
        obtain ⟨t, ht⟩ := ih (a + 1) e (some (s, ra)) (w ++ [ra.getD 60]) (n + 1)
        exact ⟨ra.getD 60 :: t, by simp [ht]⟩
      · exact ⟨[], by simp [rwrLoop, if_neg hs]⟩
    | timeout =>
      by_cases hrest : rest.isEmpty
      · have hnil : rest = [] := List.isEmpty_iff.mp hrest
        subst hnil
        exact ⟨[], by simp [rwrLoop]⟩
      · simp only [rwrLoop, if_neg hrest]
        obtain ⟨t, ht⟩ := ih (a + 1) (some RWRResult.raisedTimeout) r
          (w ++ [5 * (a + 1)]) (n + 1)
        exact ⟨5 * (a + 1) :: t, by simp [ht]⟩
    | connError =>
      by_cases hrest : rest.isEmpty
      · have hnil : rest = [] := List.isEmpty_iff.mp hrest
        subst hnil
        exact ⟨[], by simp [rwrLoop]⟩
      · simp only [rwrLoop, if_neg hrest]
        obtain ⟨t, ht⟩ := ih (a + 1) (some RWRResult.raisedConn) r
          (w ++ [5 * (a + 1)]) (n + 1)
        exact ⟨5 * (a + 1) :: t, by simp [ht]⟩

/-- Unfolding step: a 429 response consumes the iteration, logs the wait
(`Retry-After`, default 60) and keeps going. -/
lemma rwrLoop_cons_429 (ra : Option Nat) (rest : List RWROutcome)
    (a : Nat) (e : Option RWRResult) (r : Option (Nat × Option Nat))
    (w : List Nat) (n : Nat) :
    rwrLoop (RWROutcome.resp 429 ra :: rest) a e r w n =
      rwrLoop rest (a + 1) e (some (429, ra)) (w ++ [ra.getD 60]) (n + 1) := by
  simp [rwrLoop]

/-- Splitting the attempt schedule at the first attempt. -/
lemma range_map_succ (behavior : Nat → RWROutcome) (m : Nat) :
    (List.range (m + 1)).map behavior =
      behavior 0 :: (List.range m).map (fun i => behavior (i + 1)) := by
  rw [List.range_succ_eq_map, List.map_cons, List.map_map]
  rfl

/-- Running the loop over attempts that are all answered 429, with no
exception stored yet, sleeps after each one and falls out of the loop
returning the final 429 response. -/
lemma rwrLoop_all429 : ∀ (ras : List (Option Nat)) (hne : ras ≠ [])
    (a : Nat) (r : Option (Nat × Option Nat)) (w : List Nat) (n : Nat),
    rwrLoop (ras.map (RWROutcome.resp 429)) a none r w n =
      ⟨RWRResult.returned 429 (ras.getLast hne),
       w ++ ras.map (fun x => x.getD 60), n + ras.length⟩ := by
  intro ras
  induction ras with
  | nil =>
    intro hne
    exact absurd rfl hne
  | cons ra rest ih =>
    intro hne a r w n
    rw [List.map_cons, rwrLoop_cons_429]
    by_cases hrest : rest = []
    · subst hrest
      simp [rwrLoop, List.getLast]
    · rw [ih hrest (a + 1) (some (429, ra)) (w ++ [ra.getD 60]) (n + 1)]
      simp only [List.map_cons, List.length_cons, RWRRun.mk.injEq]
      refine ⟨?_, ?_, by omega⟩
      · rw [List.getLast_cons hrest]
      · rw [List.append_assoc, List.singleton_append]

/-- The last element of `ra` tabulated over `0..k`. -/
lemma getLast?_range_map (ra : Nat → Option Nat) (k : Nat) :
    ((List.range (k + 1)).map ra).getLast? = some (ra k) := by
  rw [List.range_succ, List.map_append]
  simp

/-- Claim C3, counterexample. The claim says 429 re-attempts are *not* counted
against the `max_retries` budget (which would be consumed only by timeout /
connection-error retries). Concretely false: with the default budget of 3,
the attempt sequence 429, timeout, timeout ends with the timeout re-raised
after exactly 3 attempts — the leading 429 consumed a budget slot, so only two
timeout attempts were possible and the successful third timeout re-attempt
(`attempt 3` below would have returned 200) was never made, while the very same
timeout/response tail alone under the same budget does reach the 200. Also,
with `max_retries = 1` a 429 triggers the wait but no re-attempt at all: the
429 response itself is returned after a single attempt. -/
theorem C3_429_counterexample :
    (request_with_retry 3 (fun n =>
        if n = 0 then RWROutcome.resp 429 none
        else if n ≤ 2 then RWROutcome.timeout
        else RWROutcome.resp 200 none) =
      ⟨RWRResult.raisedTimeout, [60, 10], 3⟩) ∧
    (request_with_retry 3 (fun n =>
        if n ≤ 1 then RWROutcome.timeout else RWROutcome.resp 200 none) =
      ⟨RWRResult.returned 200 none, [5, 10], 3⟩) ∧
    (request_with_retry 1 (fun _ => RWROutcome.resp 429 (some 7)) =
      ⟨RWRResult.returned 429 (some 7), [7], 1⟩) := by
  refine ⟨?_, ?_, ?_⟩ <;> rfl

/-- Claim C3, amended: a 429 response triggers a wait of the server-supplied
`Retry-After` interval (default 60 seconds) followed by a re-attempt only when
the `max_retries` attempt budget is not yet exhausted: 429 attempts are
counted against the same `max_retries` budget as timeout and connection-error
retries, so the total number of attempts never exceeds `max_retries`; and when
every attempt of the budget is answered with a 429 (in particular when
`max_retries = 1`), the code sleeps after each one and then returns the final
429 response to the caller with no further re-attempt. -/
theorem C3_429_budget (maxRetries : Nat) (behavior : Nat → RWROutcome)
    (w : Option Nat) (hfirst : behavior 0 = RWROutcome.resp 429 w) :
    (request_with_retry maxRetries behavior).attempts ≤ maxRetries ∧
    (1 ≤ maxRetries →
      (request_with_retry maxRetries behavior).waits.head? = some (w.getD 60)) ∧
    (2 ≤ maxRetries → 2 ≤ (request_with_retry maxRetries behavior).attempts) ∧
    (∀ ra : Nat → Option Nat,
      (∀ i, i < maxRetries → behavior i = RWROutcome.resp 429 (ra i)) →
      1 ≤ maxRetries →
      request_with_retry maxRetries behavior =
        ⟨RWRResult.returned 429 (ra (maxRetries - 1)),
         (List.range maxRetries).map (fun i => (ra i).getD 60),
         maxRetries⟩) := by
  refine ⟨?_, ?_, ?_, ?_⟩
  · have h := rwrLoop_attempts_le ((List.range maxRetries).map behavior)
      0 none none [] 0
    simpa [request_with_retry] using h
  · intro h1
    obtain ⟨m, hm⟩ : ∃ m, maxRetries = m + 1 := ⟨maxRetries - 1, by omega⟩
    subst hm
    rw [request_with_retry, range_map_succ, hfirst, rwrLoop_cons_429]
    obtain ⟨t, ht⟩ := rwrLoop_waits_prefix
      ((List.range m).map (fun i => behavior (i + 1))) 1 none (some (429, w))
      ([] ++ [w.getD 60]) 1
    rw [ht]
    simp
  · intro h2
    obtain ⟨m, hm⟩ : ∃ m, maxRetries = m + 2 := ⟨maxRetries - 2, by omega⟩
    subst hm
    rw [request_with_retry, show m + 2 = m + 1 + 1 by omega, range_map_succ,
      hfirst, rwrLoop_cons_429]
    have hne : (List.range (m + 1)).map (fun i => behavior (i + 1)) ≠ [] := by
      simp
    have h := rwrLoop_attempts_ge
      ((List.range (m + 1)).map (fun i => behavior (i + 1))) hne 1 none
      (some (429, w)) ([] ++ [w.getD 60]) 1
    simp only [Nat.zero_add]
    omega
  · intro ra hall h1
    have hlist : (List.range maxRetries).map behavior =
        ((List.range maxRetries).map ra).map (RWROutcome.resp 429) := by
      rw [List.map_map]
      exact List.map_congr_left (fun i hi => hall i (List.mem_range.mp hi))
    have hne : (List.range maxRetries).map ra ≠ [] := by
      simp only [ne_eq, List.map_eq_nil_iff, List.range_eq_nil]
      omega
    have hlast : ((List.range maxRetries).map ra).getLast hne =
        ra (maxRetries - 1) := by
      obtain ⟨k, rfl⟩ : ∃ k, maxRetries = k + 1 := ⟨maxRetries - 1, by omega⟩
      have h2 := getLast?_range_map ra k
      rw [List.getLast?_eq_getLast _ hne] at h2
      exact Option.some.inj h2
    rw [request_with_retry, hlist, rwrLoop_all429 _ hne 0 none [] 0, hlast]
    simp [List.map_map, Function.comp]

/-- Witness for `C3_429_budget` at a concrete behavior: every attempt is a 429
with `Retry-After: 5`, under the budget 2 — each prong applies
non-vacuously. -/
theorem C3_429_budget_witness :
    ((fun _ : Nat => RWROutcome.resp 429 (some 5)) 0 =
      RWROutcome.resp 429 (some 5)) ∧
    ((request_with_retry 2
        (fun _ : Nat => RWROutcome.resp 429 (some 5))).attempts ≤ 2 ∧
     (1 ≤ 2 →
       (request_with_retry 2
         (fun _ : Nat => RWROutcome.resp 429 (some 5))).waits.head? =
         some 5) ∧
     (2 ≤ 2 → 2 ≤ (request_with_retry 2
         (fun _ : Nat => RWROutcome.resp 429 (some 5))).attempts) ∧
     (∀ ra : Nat → Option Nat,
       (∀ i, i < 2 → (fun _ : Nat => RWROutcome.resp 429 (some 5)) i =
         RWROutcome.resp 429 (ra i)) →
       1 ≤ 2 →
       request_with_retry 2 (fun _ : Nat => RWROutcome.resp 429 (some 5)) =
         ⟨RWRResult.returned 429 (ra (2 - 1)),
          (List.range 2).map (fun i => (ra i).getD 60), 2⟩)) :=
  ⟨by decide, C3_429_budget 2 _ (some 5) (by decide)⟩

/-! ## `restore_to_overseerr` (lines 376-664)

The snapshot is the parsed `backup_data['libraries']` value: an ordered list of
`(library name, item list)` pairs. Each item keeps exactly the fields the
restore loop reads; `file_exists` (snapshot-time flag) is carried along to show
it is never consulted. The outside world is an `Env` of functions: the live
Plex episode query, the filesystem existence check, the Overseerr submission
behavior per item id, and the wall clock used for ledger timestamps. -/

/-- A backed-up item as stored in the snapshot (`item_data`, lines 277-316). -/
structure Item : Type where
  title : String
  type : String
  ratingKey : String
  /-- `item.get('episodes', 0)` — total episodes at export time (shows). -/
  episodes : Nat
  /-- `item['file_path']`, absent key modeled as `none`. -/
  file_path : Option String
  /-- snapshot-time `file_exists` flag (written by export, never read here). -/
  file_exists : Bool
  /-- `item.get('tmdb_id')`, a string extracted from the Plex GUID. -/
  tmdb_id : Option String
deriving DecidableEq, Repr

/-- Outcome of the live Plex metadata query for a show (lines 493-505):
either `request_with_retry` raised, or it returned a response with a status
code and — when status 200 with non-empty `Metadata` — a `leafCount`
(`none` covers both empty `Metadata` and a missing `leafCount` key, which the
code reads as 0). -/
inductive PlexQueryResult : Type where
  | raises
  | resp (status : Nat) (leaf : Option Nat)
deriving DecidableEq, Repr

/-- Outcome of `Path(file_path).exists()` (lines 522-526): the check itself can
raise (caught, leaving `file_exists_now = False`) or report a boolean. -/
inductive FileCheck : Type where
  | raises
  | found (b : Bool)
deriving DecidableEq, Repr

/-- Net effect of one `request_with_retry` POST to Overseerr: either it raised
(timeout / connection error after exhausting retries) or it produced a
response, whose text may contain `csrf` when the status is 403. -/
inductive HttpStep : Type where
  | raises
  | resp (status : Nat) (csrfText : Bool)
deriving DecidableEq, Repr

/-- Submission behavior for one item: the first POST, and the POST retried with
CSRF-bypass headers that the code performs when the first answer is a 403 whose
body mentions `csrf` (lines 590-612). -/
structure SubmitBehavior : Type where
  first : HttpStep
  second : HttpStep
deriving DecidableEq, Repr

/-- The submission outcome the driver acts on after the optional CSRF retry. -/
inductive SubmitOutcome : Type where
  | raised
  | status (s : Nat)
deriving DecidableEq, Repr

/-- Resolve the CSRF dance: a 403-with-csrf first response is replaced by the
second POST's outcome; anything else stands as is. -/
def effectiveSubmit (b : SubmitBehavior) : SubmitOutcome :=
  match b.first with
  | HttpStep.raises => SubmitOutcome.raised
  | HttpStep.resp s c =>
    if s = 403 ∧ c then
      match b.second with
      | HttpStep.raises => SubmitOutcome.raised
      | HttpStep.resp s2 _ => SubmitOutcome.status s2
    else SubmitOutcome.status s

/-- The world outside the restore loop. -/
structure Env : Type where
  plexQuery : String → PlexQueryResult
  fileCheck : String → FileCheck
  submit : String → SubmitBehavior
  now : String

/-- Python truthiness of the CLI `batch_limit` (`if batch_limit and ...`):
`None` and `0` are falsy. -/
def truthyLimit : Option Nat → Bool
  | none => false
  | some n => decide (n ≠ 0)

/-- Python truthiness of an optional string (absent key or `''` are falsy). -/
def truthyStr : Option String → Bool
  | none => false
  | some s => decide (s ≠ "")

/-- Decimal value of one character, if it is a digit. -/
def digitVal? (c : Char) : Option Nat :=
  if '0' ≤ c ∧ c ≤ '9' then some (c.toNat - '0'.toNat) else none

/-- Accumulate the decimal value of a digit string. -/
def digitsToNat? : List Char → Nat → Option Nat
  | [], acc => some acc
  | c :: rest, acc =>
    match digitVal? c with
    | none => none
    | some d => digitsToNat? rest (acc * 10 + d)

/-- `int(tmdb_id)` on the digit strings the export writes into `tmdb_id`
(split off a Plex GUID); `none` models the `ValueError` on a non-numeric
string, which the enclosing `try` turns into an `errors` increment. -/
def pyInt? (s : String) : Option Nat :=
  match s.data with
  | [] => none
  | l => digitsToNat? l 0

/-- `current_episodes` as computed in lines 494-505: 0 before the query; on a
200 response the `leafCount` (0 when `Metadata` is empty or has no
`leafCount`); left at 0 on a non-200 response; set to the backed-up count when
the query raises (`Assume OK if can't query`). -/
def currentEpisodes (q : PlexQueryResult) (backedUp : Nat) : Nat :=
  match q with
  | PlexQueryResult.raises => backedUp
  | PlexQueryResult.resp status leaf => if status = 200 then leaf.getD 0 else 0

/-- `file_exists_now` as computed in lines 520-526. -/
def fileExistsNow (env : Env) (it : Item) : Bool :=
  if truthyStr it.file_path then
    match env.fileCheck (it.file_path.getD "") with
    | FileCheck.raises => false
    | FileCheck.found b => b
  else false

/-- The ledger key of an item (`f"{lib_name}:{item['ratingKey']}"`). -/
def itemId (lib : String) (it : Item) : String := lib ++ ":" ++ it.ratingKey

/-- A ledger entry recorded under `progress_data['submitted'][item_id]`. -/
structure LedgerEntry : Type where
  title : String
  type : String
  submitted_at : String
deriving DecidableEq, Repr

/-- The `submitted` mapping of the progress ledger, in insertion order. -/
abbrev Ledger := List (String × LedgerEntry)

/-- The mutable `stats` dict of `restore_to_overseerr` (lines 458-466). -/
structure Stats : Type where
  total_missing : Nat
  requests_created : Nat
  requests_skipped : Nat
  already_exist : Nat
  batch_limit_reached : Bool
  errors : Nat
  re_verified_exist : Nat
deriving DecidableEq, Repr

/-- Running state of the restore loop. Besides the Python variables (`stats`,
`progress_data['submitted']`, `requests_created_this_batch`, and the pending
`break`) it carries ghost logs: the item ids successfully created, the item ids
for which a POST was issued, and the item ids for which a live missing-state
check (Plex episode query or filesystem stat) was performed. -/
structure RState : Type where
  stats : Stats
  ledger : Ledger
  batch : Nat
  createdIds : List String
  postedIds : List String
  queriedIds : List String
  brk : Bool
deriving DecidableEq, Repr

/-- Static configuration of one `restore_to_overseerr` call. -/
structure StepCfg : Type where
  env : Env
  batchLimit : Option Nat
  progressFile : Bool

/-- `stats['requests_skipped'] += 1`. -/
def addSkipped (st : RState) : RState :=
  { st with stats := { st.stats with
      requests_skipped := st.stats.requests_skipped + 1 } }

/-- `stats['already_exist'] += 1`. -/
def addExist (st : RState) : RState :=
  { st with stats := { st.stats with
      already_exist := st.stats.already_exist + 1 } }

/-- `stats['total_missing'] += 1`. -/
def addMissing (st : RState) : RState :=
  { st with stats := { st.stats with
      total_missing := st.stats.total_missing + 1 } }

/-- `stats['errors'] += 1`. -/
def addError (st : RState) : RState :=
  { st with stats := { st.stats with errors := st.stats.errors + 1 } }

/-- `stats['batch_limit_reached'] = True` followed by `break`. -/
def setFlag (st : RState) : RState :=
  { st with stats := { st.stats with batch_limit_reached := true }, brk := true }

/-- Ghost log: a live missing-state check ran for this item id. -/
def logQuery (st : RState) (iid : String) : RState :=
  { st with queriedIds := st.queriedIds ++ [iid] }

/-- Ghost log: a POST to `/api/v1/request` was issued for this item id. -/
def logPost (st : RState) (iid : String) : RState :=
  { st with postedIds := st.postedIds ++ [iid] }

/-- Success bookkeeping (lines 625-637): bump `requests_created` and the batch
counter, and — when a progress file is in use — record the ledger entry before
moving to the next item. -/
def recordCreated (progressFile : Bool) (iid : String) (e : LedgerEntry)
    (st : RState) : RState :=
  { st with
    stats := { st.stats with requests_created := st.stats.requests_created + 1 }
    batch := st.batch + 1
    createdIds := st.createdIds ++ [iid]
    ledger := if progressFile then assocSet st.ledger iid e else st.ledger }

/-- The `try` block around request building and submission (lines 549-647):
skip when there is no truthy `tmdb_id`; `int(tmdb_id)` failure raises into the
`except` (an error); otherwise POST (with the CSRF retry resolved by
`effectiveSubmit`): a raise counts as an error, a 200/201/202 books the
creation, anything else counts as skipped. -/
def submitTry (cfg : StepCfg) (it : Item) (iid : String) (st : RState) :
    RState :=
  if truthyStr it.tmdb_id then
    match pyInt? (it.tmdb_id.getD "") with
    | none => addError st
    | some _ =>
      match effectiveSubmit (cfg.env.submit iid) with
      | SubmitOutcome.raised => addError (logPost st iid)
      | SubmitOutcome.status s =>
        if s = 200 ∨ s = 201 ∨ s = 202 then
          recordCreated cfg.progressFile iid ⟨it.title, it.type, cfg.env.now⟩
            (logPost st iid)
        else addSkipped (logPost st iid)
  else addSkipped st

/-- The batch-limit gate (lines 543-547), sitting between the missing
classification and the submission attempt. -/
def submitGate (cfg : StepCfg) (it : Item) (iid : String) (st : RState) :
    RState :=
  if truthyLimit cfg.batchLimit ∧ cfg.batchLimit.getD 0 ≤ st.batch then
    setFlag st
  else submitTry cfg it iid st

/-- One iteration of `for item in items` (lines 475-647). -/
def processItem (cfg : StepCfg) (lib : String) (it : Item) (st : RState) :
    RState :=
  let iid := itemId lib it
  if (assocGet st.ledger iid).isSome then addSkipped st
  else if it.type = "show" then
    if it.episodes = 0 then addExist st
    else
      let st2 := logQuery st iid
      if it.episodes ≤
          currentEpisodes (cfg.env.plexQuery it.ratingKey) it.episodes then
        addExist st2
      else submitGate cfg it iid (addMissing st2)
  else if it.type = "movie" then
    let st2 := logQuery st iid
    if fileExistsNow cfg.env it then addExist st2
    else submitGate cfg it iid (addMissing st2)
  else addSkipped st

/-- `for item in items: ...` with the batch-limit `break`. -/
def processItems (cfg : StepCfg) (lib : String) :
    List Item → RState → RState
  | [], st => st
  | it :: rest, st =>
    let st2 := processItem cfg lib it st
    if st2.brk then st2 else processItems cfg lib rest st2

/-- `for lib_name, items in backup_data['libraries'].items()` with the outer
`if stats['batch_limit_reached']: break` (lines 472-650). -/
def processLibs (cfg : StepCfg) :
    List (String × List Item) → RState → RState
  | [], st => st
  | (lib, items) :: rest, st =>
    let st2 := processItems cfg lib items st
    if st2.stats.batch_limit_reached then st2 else processLibs cfg rest st2

/-- Initial state of a run: zeroed stats, the ledger loaded from the progress
file when one is in use (`progress_data` stays `{}` otherwise). -/
def initState (progressFile : Bool) (loaded : Ledger) : RState :=
  ⟨⟨0, 0, 0, 0, false, 0, 0⟩, if progressFile then loaded else [], 0,
    [], [], [], false⟩

/-- The whole restore pass of `restore_to_overseerr` over the snapshot's
libraries; the final state's `ledger` is what gets saved back to the progress
file at lines 652-661. -/
def restore_to_overseerr (env : Env) (libraries : List (String × List Item))
    (batchLimit : Option Nat) (progressFile : Bool) (loaded : Ledger) :
    RState :=
  processLibs ⟨env, batchLimit, progressFile⟩ libraries
    (initState progressFile loaded)

/-- The reconciliation verdict for one item, read off lines 483-541: a show is
missing iff it has backed-up episodes and the live count is smaller; a movie is
missing iff its file does not exist now; other types are never missing. -/
def isMissing (env : Env) (it : Item) : Bool :=
  if it.type = "show" then
    decide (it.episodes ≠ 0 ∧
      currentEpisodes (env.plexQuery it.ratingKey) it.episodes < it.episodes)
  else if it.type = "movie" then !fileExistsNow env it
  else false

/-- An item of the snapshot that is missing *and* not already in the ledger the
run started from (`keys0` is that initial key set). -/
def missingNew (env : Env) (keys0 : List String) (lib : String) (it : Item) :
    Bool :=
  !(keys0.contains (itemId lib it)) && isMissing env it

/-- The item ids of a library chunk, in processing order. -/
def itemIdsOf (lib : String) (items : List Item) : List String :=
  items.map (itemId lib)

/-- All item ids of the snapshot, in processing order. -/
def allItemIds : List (String × List Item) → List String
  | [] => []
  | (lib, items) :: rest => itemIdsOf lib items ++ allItemIds rest

/-- Ids of the missing-and-new items of one library, in processing order. -/
def missingIdsOf (env : Env) (keys0 : List String) (lib : String)
    (items : List Item) : List String :=
  (items.filter (missingNew env keys0 lib)).map (itemId lib)

/-- Ids of the missing-and-new items of the whole snapshot (the live
missing-set of the run), in processing order. -/
def allMissingIds (env : Env) (keys0 : List String) :
    List (String × List Item) → List String
  | [] => []
  | (lib, items) :: rest =>
    missingIdsOf env keys0 lib items ++ allMissingIds env keys0 rest

/-- The item carries a usable TMDB id: truthy and parseable by `int`. -/
def tmdbOk (it : Item) : Bool :=
  truthyStr it.tmdb_id && (pyInt? (it.tmdb_id.getD "")).isSome

/-- The submission POST for this item id settles on a success status. -/
def submitOk (env : Env) (iid : String) : Bool :=
  match effectiveSubmit (env.submit iid) with
  | SubmitOutcome.raised => false
  | SubmitOutcome.status s => decide (s = 200 ∨ s = 201 ∨ s = 202)

/-! ## Association-list lemmas -/

lemma assocGet_eq_none {α : Type} (l : List (String × α)) (k : String) :
    assocGet l k = none ↔ k ∉ assocKeys l := by
  induction l with
  | nil => simp [assocGet, assocKeys]
  | cons p rest ih =>
    obtain ⟨k2, v⟩ := p
    by_cases h : k2 = k
    · subst h
      simp [assocGet, assocKeys]
    · simp [assocGet, assocKeys, h, ih]
      tauto

lemma assocGet_isSome {α : Type} (l : List (String × α)) (k : String) :
    (assocGet l k).isSome = true ↔ k ∈ assocKeys l := by
  rw [← Decidable.not_iff_not, ← assocGet_eq_none]
  cases assocGet l k <;> simp

lemma assocKeys_set {α : Type} (l : List (String × α)) (k : String) (v : α) :
    assocKeys (assocSet l k v) =
      if k ∈ assocKeys l then assocKeys l else assocKeys l ++ [k] := by
  induction l with
  | nil => simp [assocSet, assocKeys]
  | cons p rest ih =>
    obtain ⟨k2, v2⟩ := p
    by_cases h : k2 = k
    · subst h
      simp [assocSet, assocKeys]
    · have hne : ¬ k = k2 := fun hh => h hh.symm
      rw [assocSet, if_neg h]
      simp only [assocKeys, List.map_cons] at ih ⊢
      rw [ih]
      simp only [List.mem_cons]
      by_cases h2 : k ∈ List.map Prod.fst rest
      · rw [if_pos h2, if_pos (Or.inr h2)]
      · rw [if_neg h2, if_neg (by tauto), List.cons_append]

lemma mem_assocKeys_set {α : Type} (l : List (String × α)) (k k' : String)
    (v : α) :
    k' ∈ assocKeys (assocSet l k v) ↔ k' ∈ assocKeys l ∨ k' = k := by
  rw [assocKeys_set]
  by_cases h : k ∈ assocKeys l
  · rw [if_pos h]
    constructor
    · tauto
    · rintro (hh | rfl) <;> [exact hh; exact h]
  · rw [if_neg h]
    simp

lemma assocGet_set_self {α : Type} (l : List (String × α)) (k : String)
    (v : α) : assocGet (assocSet l k v) k = some v := by
  induction l with
  | nil => simp [assocSet, assocGet]
  | cons p rest ih =>
    obtain ⟨k2, v2⟩ := p
    by_cases h : k2 = k
    · subst h
      simp [assocSet, assocGet]
    · simp [assocSet, assocGet, h, ih]

lemma assocGet_set_ne {α : Type} (l : List (String × α)) (k k' : String)
    (v : α) (h : k' ≠ k) :
    assocGet (assocSet l k v) k' = assocGet l k' := by
  induction l with
  | nil =>
    simp only [assocSet, assocGet]
    rw [if_neg (fun hh : k = k' => h hh.symm)]
  | cons p rest ih =>
    obtain ⟨k2, v2⟩ := p
    by_cases h2 : k2 = k
    · subst h2
      have hne : ¬ k2 = k' := fun hh => h hh.symm
      rw [assocSet, if_pos rfl, assocGet, if_neg hne, assocGet, if_neg hne]
    · by_cases h3 : k2 = k'
      · rw [assocSet, if_neg h2, assocGet, if_pos h3, assocGet, if_pos h3]
      · rw [assocSet, if_neg h2, assocGet, if_neg h3, assocGet, if_neg h3, ih]

/-! ## Shape analysis of one loop iteration -/

/-- Every iteration of the item loop lands in one of finitely many state
transforms; the interesting branches record the facts that got us there. -/
lemma processItem_cases (cfg : StepCfg) (lib : String) (it : Item)
    (st : RState) :
    processItem cfg lib it st = addSkipped st ∨
    (assocGet st.ledger (itemId lib it) = none ∧
      (processItem cfg lib it st = addExist st ∨
       processItem cfg lib it st = addExist (logQuery st (itemId lib it)) ∨
       (truthyLimit cfg.batchLimit = true ∧
         cfg.batchLimit.getD 0 ≤ st.batch ∧
         processItem cfg lib it st =
           setFlag (addMissing (logQuery st (itemId lib it)))) ∨
       processItem cfg lib it st =
         addSkipped (addMissing (logQuery st (itemId lib it))) ∨
       processItem cfg lib it st =
         addError (addMissing (logQuery st (itemId lib it))) ∨
       processItem cfg lib it st =
         addError (logPost (addMissing (logQuery st (itemId lib it)))
           (itemId lib it)) ∨
       processItem cfg lib it st =
         addSkipped (logPost (addMissing (logQuery st (itemId lib it)))
           (itemId lib it)) ∨
       processItem cfg lib it st =
         recordCreated cfg.progressFile (itemId lib it)
           ⟨it.title, it.type, cfg.env.now⟩
           (logPost (addMissing (logQuery st (itemId lib it)))
             (itemId lib it)))) := by
  set iid := itemId lib it with hiid
  by_cases h1 : (assocGet st.ledger iid).isSome
  · left
    simp [processItem, ← hiid, h1]
  · have h1' : assocGet st.ledger iid = none := by
      cases hh : assocGet st.ledger iid with
      | none => rfl
      | some e => rw [hh] at h1; simp at h1
    have hgo : ∀ st' : RState, st'.batch = st.batch →
        submitGate cfg it iid st' = setFlag st' ∧ truthyLimit cfg.batchLimit =
          true ∧ cfg.batchLimit.getD 0 ≤ st.batch ∨
        (submitGate cfg it iid st' = addSkipped st' ∨
         submitGate cfg it iid st' = addError st' ∨
         submitGate cfg it iid st' = addError (logPost st' iid) ∨
         submitGate cfg it iid st' = addSkipped (logPost st' iid) ∨
         submitGate cfg it iid st' =
           recordCreated cfg.progressFile iid ⟨it.title, it.type, cfg.env.now⟩
             (logPost st' iid)) := by
      intro st' hb
      by_cases hg : truthyLimit cfg.batchLimit ∧
          cfg.batchLimit.getD 0 ≤ st'.batch
      · exact Or.inl ⟨by rw [submitGate, if_pos hg], hg.1, hb ▸ hg.2⟩
      · right
        by_cases ht : truthyStr it.tmdb_id
        · cases hp : pyInt? (it.tmdb_id.getD "") with
          | none =>
            refine Or.inr (Or.inl ?_)
            simp [submitGate, submitTry, hg, ht, hp]
          | some k =>
            cases hs : effectiveSubmit (cfg.env.submit iid) with
            | raised =>
              refine Or.inr (Or.inr (Or.inl ?_))
              simp [submitGate, submitTry, hg, ht, hp, hs]
            | status s =>
              by_cases hok : s = 200 ∨ s = 201 ∨ s = 202
              · refine Or.inr (Or.inr (Or.inr (Or.inr ?_)))
                simp only [submitGate, submitTry, if_neg hg, if_pos ht, hp, hs]
                rw [if_pos hok]
              · refine Or.inr (Or.inr (Or.inr (Or.inl ?_)))
                simp only [submitGate, submitTry, if_neg hg, if_pos ht, hp, hs]
                rw [if_neg hok]
        · refine Or.inl ?_
          simp [submitGate, submitTry, hg, ht]
    by_cases h2 : it.type = "show"
    · by_cases h3 : it.episodes = 0
      · right
        exact ⟨h1', Or.inl (by simp [processItem, ← hiid, h1', h2, h3])⟩
      · by_cases h4 : it.episodes ≤
            currentEpisodes (cfg.env.plexQuery it.ratingKey) it.episodes
        · right
          refine ⟨h1', Or.inr (Or.inl ?_)⟩
          simp [processItem, ← hiid, h1', h2, h3, h4]
        · have hpi : processItem cfg lib it st =
              submitGate cfg it iid (addMissing (logQuery st iid)) := by
            simp [processItem, ← hiid, h1', h2, h3, h4]
          have hb : (addMissing (logQuery st iid)).batch = st.batch := rfl
          rcases hgo (addMissing (logQuery st iid)) hb with
            ⟨hg, hg1, hg2⟩ | hg | hg | hg | hg | hg
          · exact Or.inr ⟨h1', Or.inr (Or.inr (Or.inl
              ⟨hg1, hg2, by rw [hpi, hg]⟩))⟩
          · exact Or.inr ⟨h1', Or.inr (Or.inr (Or.inr (Or.inl
              (by rw [hpi, hg]))))⟩
          · exact Or.inr ⟨h1', Or.inr (Or.inr (Or.inr (Or.inr (Or.inl
              (by rw [hpi, hg])))))⟩
          · exact Or.inr ⟨h1', Or.inr (Or.inr (Or.inr (Or.inr (Or.inr (Or.inl
              (by rw [hpi, hg]))))))⟩
          · exact Or.inr ⟨h1', Or.inr (Or.inr (Or.inr (Or.inr (Or.inr (Or.inr
              (Or.inl (by rw [hpi, hg])))))))⟩
          · exact Or.inr ⟨h1', Or.inr (Or.inr (Or.inr (Or.inr (Or.inr (Or.inr
              (Or.inr (by rw [hpi, hg])))))))⟩
    · by_cases h5 : it.type = "movie"
      · by_cases h6 : fileExistsNow cfg.env it
        · right
          refine ⟨h1', Or.inr (Or.inl ?_)⟩
          simp [processItem, ← hiid, h1', h2, h5, h6]
        · have hpi : processItem cfg lib it st =
              submitGate cfg it iid (addMissing (logQuery st iid)) := by
            simp [processItem, ← hiid, h1', h2, h5, h6]
          have hb : (addMissing (logQuery st iid)).batch = st.batch := rfl
          rcases hgo (addMissing (logQuery st iid)) hb with
            ⟨hg, hg1, hg2⟩ | hg | hg | hg | hg | hg
          · exact Or.inr ⟨h1', Or.inr (Or.inr (Or.inl
              ⟨hg1, hg2, by rw [hpi, hg]⟩))⟩
          · exact Or.inr ⟨h1', Or.inr (Or.inr (Or.inr (Or.inl
              (by rw [hpi, hg]))))⟩
          · exact Or.inr ⟨h1', Or.inr (Or.inr (Or.inr (Or.inr (Or.inl
              (by rw [hpi, hg])))))⟩
          · exact Or.inr ⟨h1', Or.inr (Or.inr (Or.inr (Or.inr (Or.inr (Or.inl
              (by rw [hpi, hg]))))))⟩
          · exact Or.inr ⟨h1', Or.inr (Or.inr (Or.inr (Or.inr (Or.inr (Or.inr
              (Or.inl (by rw [hpi, hg])))))))⟩
          · exact Or.inr ⟨h1', Or.inr (Or.inr (Or.inr (Or.inr (Or.inr (Or.inr
              (Or.inr (by rw [hpi, hg])))))))⟩
      · left
        simp [processItem, ← hiid, h1', h2, h5]

/-! ## Ledger growth -/

/-- One iteration never removes a ledger key. -/
lemma ledgerKeys_mono_processItem (cfg : StepCfg) (lib : String) (it : Item)
    (st : RState) (id : String) (h : id ∈ assocKeys st.ledger) :
    id ∈ assocKeys (processItem cfg lib it st).ledger := by
  rcases processItem_cases cfg lib it st with h0 |
    ⟨hnone, h0 | h0 | ⟨_, _, h0⟩ | h0 | h0 | h0 | h0 | h0⟩ <;>
    rw [h0] <;>
    simp only [addSkipped, addExist, setFlag, addMissing, addError, logQuery,
      logPost, recordCreated] <;>
    try exact h
  by_cases hpf : cfg.progressFile
  · simp only [if_pos hpf, mem_assocKeys_set]
    exact Or.inl h
  · simp only [if_neg hpf]
    exact h

/-- One iteration adds at most its own item id to the ledger. -/
lemma ledgerKeys_bound_processItem (cfg : StepCfg) (lib : String) (it : Item)
    (st : RState) (id : String)
    (h : id ∈ assocKeys (processItem cfg lib it st).ledger) :
    id ∈ assocKeys st.ledger ∨ id = itemId lib it := by
  rcases processItem_cases cfg lib it st with h0 |
    ⟨hnone, h0 | h0 | ⟨_, _, h0⟩ | h0 | h0 | h0 | h0 | h0⟩ <;>
    rw [h0] at h <;>
    simp only [addSkipped, addExist, setFlag, addMissing, addError, logQuery,
      logPost, recordCreated] at h <;>
    try exact Or.inl h
  by_cases hpf : cfg.progressFile
  · simp only [if_pos hpf, mem_assocKeys_set] at h
    exact h
  · simp only [if_neg hpf] at h
    exact Or.inl h

/-- An item loop never removes a ledger key. -/
lemma ledgerKeys_mono_processItems (cfg : StepCfg) (lib : String) :
    ∀ (items : List Item) (st : RState) (id : String),
      id ∈ assocKeys st.ledger →
      id ∈ assocKeys (processItems cfg lib items st).ledger := by
  intro items
  induction items with
  | nil => intro st id h; exact h
  | cons it rest ih =>
    intro st id h
    rw [processItems]
    by_cases hb : (processItem cfg lib it st).brk
    · rw [if_pos hb]
      exact ledgerKeys_mono_processItem cfg lib it st id h
    · rw [if_neg hb]
      exact ih _ _ (ledgerKeys_mono_processItem cfg lib it st id h)

/-- An item loop adds only ids of its own items to the ledger. -/
lemma ledgerKeys_bound_processItems (cfg : StepCfg) (lib : String) :
    ∀ (items : List Item) (st : RState) (id : String),
      id ∈ assocKeys (processItems cfg lib items st).ledger →
      id ∈ assocKeys st.ledger ∨ id ∈ itemIdsOf lib items := by
  intro items
  induction items with
  | nil => intro st id h; exact Or.inl h
  | cons it rest ih =>
    intro st id h
    rw [processItems] at h
    by_cases hb : (processItem cfg lib it st).brk
    · rw [if_pos hb] at h
      rcases ledgerKeys_bound_processItem cfg lib it st id h with h2 | h2
      · exact Or.inl h2
      · exact Or.inr (by simp [itemIdsOf, h2])
    · rw [if_neg hb] at h
      rcases ih _ _ h with h2 | h2
      · rcases ledgerKeys_bound_processItem cfg lib it st id h2 with h3 | h3
        · exact Or.inl h3
        · exact Or.inr (by simp [itemIdsOf, h3])
      · refine Or.inr ?_
        simp only [itemIdsOf, List.map_cons, List.mem_cons]
        exact Or.inr h2

/-- The whole run never removes a ledger key. -/
lemma ledgerKeys_mono_processLibs (cfg : StepCfg) :
    ∀ (libs : List (String × List Item)) (st : RState) (id : String),
      id ∈ assocKeys st.ledger →
      id ∈ assocKeys (processLibs cfg libs st).ledger := by
  intro libs
  induction libs with
  | nil => intro st id h; exact h
  | cons p rest ih =>
    obtain ⟨lib, items⟩ := p
    intro st id h
    rw [processLibs]
    by_cases hb : (processItems cfg lib items st).stats.batch_limit_reached
    · rw [if_pos hb]
      exact ledgerKeys_mono_processItems cfg lib items st id h
    · rw [if_neg hb]
      exact ih _ _ (ledgerKeys_mono_processItems cfg lib items st id h)

/-- The whole run adds only snapshot item ids to the ledger. -/
lemma ledgerKeys_bound_processLibs (cfg : StepCfg) :
    ∀ (libs : List (String × List Item)) (st : RState) (id : String),
      id ∈ assocKeys (processLibs cfg libs st).ledger →
      id ∈ assocKeys st.ledger ∨ id ∈ allItemIds libs := by
  intro libs
  induction libs with
  | nil => intro st id h; exact Or.inl h
  | cons p rest ih =>
    obtain ⟨lib, items⟩ := p
    intro st id h
    rw [processLibs] at h
    by_cases hb : (processItems cfg lib items st).stats.batch_limit_reached
    · rw [if_pos hb] at h
      rcases ledgerKeys_bound_processItems cfg lib items st id h with h2 | h2
      · exact Or.inl h2
      · refine Or.inr ?_
        simp only [allItemIds, List.mem_append]
        exact Or.inl h2
    · rw [if_neg hb] at h
      rcases ih _ _ h with h2 | h2
      · rcases ledgerKeys_bound_processItems cfg lib items st id h2 with h3 | h3
        · exact Or.inl h3
        · refine Or.inr ?_
          simp only [allItemIds, List.mem_append]
          exact Or.inl h3
      · refine Or.inr ?_
        simp only [allItemIds, List.mem_append]
        exact Or.inr h2

/-! ## The ledger-vs-created invariant (progress file in use) -/

/-- Run invariant relative to the initial ledger key set `keys0`: the ledger
dominates the initial keys and every created id; no id is created twice; the
created ids and every id that underwent a live missing-state check are new
relative to `keys0`. -/
def Inv (keys0 : List String) (st : RState) : Prop :=
  (∀ id ∈ keys0, id ∈ assocKeys st.ledger) ∧
  (∀ id ∈ st.createdIds, id ∈ assocKeys st.ledger) ∧
  (∀ id : String, st.createdIds.count id ≤ 1) ∧
  (∀ id ∈ st.createdIds, id ∉ keys0) ∧
  (∀ id ∈ st.queriedIds, id ∉ keys0)

lemma Inv_processItem (cfg : StepCfg) (lib : String) (it : Item) (st : RState)
    (keys0 : List String) (hpf : cfg.progressFile = true) (h : Inv keys0 st) :
    Inv keys0 (processItem cfg lib it st) := by
  obtain ⟨h1, h2, h3, h4, h5⟩ := h
  rcases processItem_cases cfg lib it st with h0 |
    ⟨hnone, hc⟩
  · rw [h0]
    exact ⟨h1, h2, h3, h4, h5⟩
  · have hnotled : itemId lib it ∉ assocKeys st.ledger :=
      (assocGet_eq_none st.ledger (itemId lib it)).mp hnone
    have hnotk0 : itemId lib it ∉ keys0 := fun hk => hnotled (h1 _ hk)
    have hq : ∀ id ∈ st.queriedIds ++ [itemId lib it], id ∉ keys0 := by
      intro id hid
      rcases List.mem_append.mp hid with hid | hid
      · exact h5 id hid
      · rw [List.mem_singleton.mp hid]
        exact hnotk0
    rcases hc with h0 | h0 | ⟨_, _, h0⟩ | h0 | h0 | h0 | h0 | h0 <;> rw [h0]
    · exact ⟨h1, h2, h3, h4, h5⟩
    · exact ⟨h1, h2, h3, h4, hq⟩
    · exact ⟨h1, h2, h3, h4, hq⟩
    · exact ⟨h1, h2, h3, h4, hq⟩
    · exact ⟨h1, h2, h3, h4, hq⟩
    · exact ⟨h1, h2, h3, h4, hq⟩
    · exact ⟨h1, h2, h3, h4, hq⟩
    · have hnotcreated : itemId lib it ∉ st.createdIds := fun hc2 =>
        hnotled (h2 _ hc2)
      simp only [recordCreated, logPost, addMissing, logQuery, hpf, if_pos]
      refine ⟨?_, ?_, ?_, ?_, hq⟩
      · intro id hid
        exact (mem_assocKeys_set st.ledger (itemId lib it) id _).mpr
          (Or.inl (h1 id hid))
      · intro id hid
        rcases List.mem_append.mp hid with hid | hid
        · exact (mem_assocKeys_set st.ledger (itemId lib it) id _).mpr
            (Or.inl (h2 id hid))
        · exact (mem_assocKeys_set st.ledger (itemId lib it) id _).mpr
            (Or.inr (List.mem_singleton.mp hid))
      · intro id
        rw [List.count_append]
        by_cases hid : id = itemId lib it
        · rw [hid]
          have hz : st.createdIds.count (itemId lib it) = 0 :=
            List.count_eq_zero.mpr hnotcreated
          rw [hz]
          simp [List.count_cons]
        · have hz : [itemId lib it].count id = 0 :=
            List.count_eq_zero.mpr (by
              simp only [List.mem_singleton]
              exact hid)
          rw [hz]
          simpa using h3 id
      · intro id hid
        rcases List.mem_append.mp hid with hid | hid
        · exact h4 id hid
        · rw [List.mem_singleton.mp hid]
          exact hnotk0

lemma Inv_processItems (cfg : StepCfg) (lib : String)
    (hpf : cfg.progressFile = true) :
    ∀ (items : List Item) (st : RState) (keys0 : List String),
      Inv keys0 st → Inv keys0 (processItems cfg lib items st) := by
  intro items
  induction items with
  | nil => intro st keys0 h; exact h
  | cons it rest ih =>
    intro st keys0 h
    rw [processItems]
    by_cases hb : (processItem cfg lib it st).brk
    · rw [if_pos hb]
      exact Inv_processItem cfg lib it st keys0 hpf h
    · rw [if_neg hb]
      exact ih _ _ (Inv_processItem cfg lib it st keys0 hpf h)

lemma Inv_processLibs (cfg : StepCfg) (hpf : cfg.progressFile = true) :
    ∀ (libs : List (String × List Item)) (st : RState) (keys0 : List String),
      Inv keys0 st → Inv keys0 (processLibs cfg libs st) := by
  intro libs
  induction libs with
  | nil => intro st keys0 h; exact h
  | cons p rest ih =>
    obtain ⟨lib, items⟩ := p
    intro st keys0 h
    rw [processLibs]
    by_cases hb : (processItems cfg lib items st).stats.batch_limit_reached
    · rw [if_pos hb]
      exact Inv_processItems cfg lib hpf items st keys0 h
    · rw [if_neg hb]
      exact ih _ _ (Inv_processItems cfg lib hpf items st keys0 h)

/-- The invariant holds for a full run started on its own ledger's keys. -/
lemma Inv_restore (env : Env) (libs : List (String × List Item))
    (bl : Option Nat) (loaded : Ledger) :
    Inv (assocKeys loaded) (restore_to_overseerr env libs bl true loaded) := by
  apply Inv_processLibs _ rfl
  refine ⟨?_, ?_, ?_, ?_, ?_⟩ <;> simp [initState]

/-- Claim C1: for any fixed snapshot, running `restore_to_overseerr` twice
with the same batch limit and the same progress file, starting from an empty
ledger, creates at most one request per distinct missing item id across both
runs combined; and on the second run every item id recorded in the ledger by
the first run is skipped before any missing-state check (it is never live
queried) and contributes nothing to the created count. -/
theorem C1_idempotent_submission (env : Env) (libs : List (String × List Item))
    (bl : Option Nat) :
    let run1 := restore_to_overseerr env libs bl true []
    let run2 := restore_to_overseerr env libs bl true run1.ledger
    (∀ id : String, (run1.createdIds ++ run2.createdIds).count id ≤ 1) ∧
    (∀ id ∈ assocKeys run1.ledger,
      id ∉ run2.createdIds ∧ id ∉ run2.queriedIds) := by
  intro run1 run2
  obtain ⟨h11, h12, h13, h14, h15⟩ := Inv_restore env libs bl []
  obtain ⟨h21, h22, h23, h24, h25⟩ := Inv_restore env libs bl run1.ledger
  constructor
  · intro id
    rw [List.count_append]
    by_cases hmem : id ∈ run1.createdIds
    · have hz : run2.createdIds.count id = 0 :=
        List.count_eq_zero.mpr (fun hc => h24 id hc (h12 id hmem))
      have hle : run1.createdIds.count id ≤ 1 := h13 id
      omega
    · have hz : run1.createdIds.count id = 0 := List.count_eq_zero.mpr hmem
      have hle : run2.createdIds.count id ≤ 1 := h23 id
      omega
  · intro id hid
    exact ⟨fun hc => h24 id hc hid, fun hq => h25 id hq hid⟩

/-- Claim C8: the ledger's key set is monotone — a single loop iteration never
removes a key, and a whole run against a progress file keeps every key of the
ledger it loaded. -/
theorem C8_monotonic_ledger :
    (∀ (cfg : StepCfg) (lib : String) (it : Item) (st : RState) (id : String),
      id ∈ assocKeys st.ledger →
      id ∈ assocKeys (processItem cfg lib it st).ledger) ∧
    (∀ (env : Env) (libs : List (String × List Item)) (bl : Option Nat)
      (loaded : Ledger) (id : String), id ∈ assocKeys loaded →
      id ∈ assocKeys (restore_to_overseerr env libs bl true loaded).ledger) := by
  constructor
  · exact ledgerKeys_mono_processItem
  · intro env libs bl loaded id h
    apply ledgerKeys_mono_processLibs
    simpa [initState] using h

/-- Claim C4: with a progress file in use, whenever the submission POST for an
item returns a success status the ledger entry (item id, title, type and the
submission timestamp) is recorded before the driver moves to the next item —
the per-item step preserves the invariant that the ledger holds an entry for
every id created so far, and whenever the step increments `requests_created`
the resulting ledger already answers for this item's id. -/
theorem C4_ledger_write_order (cfg : StepCfg) (lib : String) (it : Item)
    (st : RState) (hpf : cfg.progressFile = true)
    (hinv : ∀ id ∈ st.createdIds, (assocGet st.ledger id).isSome = true) :
    (∀ id ∈ (processItem cfg lib it st).createdIds,
      (assocGet (processItem cfg lib it st).ledger id).isSome = true) ∧
    ((processItem cfg lib it st).stats.requests_created =
        st.stats.requests_created + 1 →
      assocGet (processItem cfg lib it st).ledger (itemId lib it) =
        some ⟨it.title, it.type, cfg.env.now⟩) := by
  have base : ∀ st2 : RState, st2.createdIds = st.createdIds →
      st2.ledger = st.ledger →
      st2.stats.requests_created = st.stats.requests_created →
      ((∀ id ∈ st2.createdIds, (assocGet st2.ledger id).isSome = true) ∧
       (st2.stats.requests_created = st.stats.requests_created + 1 →
         assocGet st2.ledger (itemId lib it) =
           some ⟨it.title, it.type, cfg.env.now⟩)) := by
    intro st2 hc hl hr
    refine ⟨by rw [hc, hl]; exact hinv, ?_⟩
    intro hcontra
    rw [hr] at hcontra
    omega
  rcases processItem_cases cfg lib it st with h0 |
    ⟨hnone, h0 | h0 | ⟨_, _, h0⟩ | h0 | h0 | h0 | h0 | h0⟩ <;> rw [h0]
  · exact base _ rfl rfl rfl
  · exact base _ rfl rfl rfl
  · exact base _ rfl rfl rfl
  · exact base _ rfl rfl rfl
  · exact base _ rfl rfl rfl
  · exact base _ rfl rfl rfl
  · exact base _ rfl rfl rfl
  · exact base _ rfl rfl rfl
  · simp only [recordCreated, logPost, addMissing, logQuery, hpf, if_pos]
    constructor
    · intro id hid
      rcases List.mem_append.mp hid with hid | hid
      · by_cases he : id = itemId lib it
        · rw [he, assocGet_set_self]
          rfl
        · rw [assocGet_set_ne st.ledger (itemId lib it) id _ he]
          exact hinv id hid
      · rw [List.mem_singleton.mp hid, assocGet_set_self]
        rfl
    · intro _
      exact assocGet_set_self st.ledger (itemId lib it) _

/-! ## Concrete fixtures for the witnesses -/

/-- A simple deterministic world: live queries raise, files are absent, every
submission is answered 201. -/
def wEnv : Env :=
  ⟨fun _ => PlexQueryResult.raises, fun _ => FileCheck.found false,
   fun _ => ⟨HttpStep.resp 201 false, HttpStep.resp 201 false⟩, "2024-01-01"⟩

/-- A missing movie with a usable TMDB id. -/
def wMovie : Item := ⟨"m1", "movie", "1", 0, none, false, some "11"⟩

/-- Witness for `C4_ledger_write_order`: processing the missing movie from the
fresh initial state records its ledger entry. -/
theorem C4_ledger_write_order_witness :
    ((⟨wEnv, none, true⟩ : StepCfg).progressFile = true) ∧
    (∀ id ∈ (initState true []).createdIds,
      (assocGet (initState true []).ledger id).isSome = true) ∧
    ((∀ id ∈ (processItem ⟨wEnv, none, true⟩ "L" wMovie
        (initState true [])).createdIds,
      (assocGet (processItem ⟨wEnv, none, true⟩ "L" wMovie
        (initState true [])).ledger id).isSome = true) ∧
    ((processItem ⟨wEnv, none, true⟩ "L" wMovie
        (initState true [])).stats.requests_created =
        (initState true []).stats.requests_created + 1 →
      assocGet (processItem ⟨wEnv, none, true⟩ "L" wMovie
        (initState true [])).ledger (itemId "L" wMovie) =
        some ⟨wMovie.title, wMovie.type, wEnv.now⟩)) :=
  ⟨rfl, by simp [initState],
    C4_ledger_write_order ⟨wEnv, none, true⟩ "L" wMovie (initState true []) rfl
      (by simp [initState])⟩

/-- A ledger entry used by the `C8` witness. -/
def wEntry : LedgerEntry := ⟨"m1", "movie", "2023-12-31"⟩

/-- Witness for `C8_monotonic_ledger`: a key of the loaded ledger survives a
run (and survives one loop iteration). -/
theorem C8_monotonic_ledger_witness :
    ("L:1" ∈ assocKeys [("L:1", wEntry)]) ∧
    "L:1" ∈ assocKeys (restore_to_overseerr wEnv [("L", [wMovie])] none true
      [("L:1", wEntry)]).ledger :=
  ⟨by simp [assocKeys],
    C8_monotonic_ledger.2 wEnv [("L", [wMovie])] none [("L:1", wEntry)] "L:1"
      (by simp [assocKeys])⟩

/-! ## Branch lemmas for the classification step -/

/-- The gate and the submission attempt never touch the classification stats,
the live-check log, or the already-processed skip bookkeeping of interest. -/
lemma submitGate_preserves (cfg : StepCfg) (it : Item) (iid : String)
    (st : RState) :
    (submitGate cfg it iid st).stats.total_missing =
      st.stats.total_missing ∧
    (submitGate cfg it iid st).stats.already_exist =
      st.stats.already_exist ∧
    (submitGate cfg it iid st).queriedIds = st.queriedIds := by
  rw [submitGate]
  split
  · exact ⟨rfl, rfl, rfl⟩
  · rw [submitTry]
    split
    · split
      · exact ⟨rfl, rfl, rfl⟩
      · split
        · exact ⟨rfl, rfl, rfl⟩
        · split
          · exact ⟨rfl, rfl, rfl⟩
          · exact ⟨rfl, rfl, rfl⟩
    · exact ⟨rfl, rfl, rfl⟩

/-- An item already in the ledger is skipped outright (lines 476-481). -/
lemma processItem_ledgered (cfg : StepCfg) (lib : String) (it : Item)
    (st : RState) (h : (assocGet st.ledger (itemId lib it)).isSome = true) :
    processItem cfg lib it st = addSkipped st := by
  simp [processItem, h]

/-- A new item that classifies as missing reaches the batch gate with
`total_missing` bumped and the live check logged. -/
lemma processItem_missing (cfg : StepCfg) (lib : String) (it : Item)
    (st : RState) (hled : assocGet st.ledger (itemId lib it) = none)
    (hmiss : isMissing cfg.env it = true) :
    processItem cfg lib it st =
      submitGate cfg it (itemId lib it)
        (addMissing (logQuery st (itemId lib it))) := by
  rw [isMissing] at hmiss
  by_cases htype : it.type = "show"
  · rw [if_pos htype] at hmiss
    have hm := of_decide_eq_true hmiss
    simp [processItem, hled, htype, hm.1, not_le.mpr hm.2]
  · rw [if_neg htype] at hmiss
    by_cases hmov : it.type = "movie"
    · rw [if_pos hmov] at hmiss
      have hfe : fileExistsNow cfg.env it = false := by
        cases hfe2 : fileExistsNow cfg.env it
        · rfl
        · rw [hfe2] at hmiss
          simp at hmiss
      simp [processItem, hled, htype, hmov, hfe]
    · rw [if_neg hmov] at hmiss
      simp at hmiss

/-- A new item that does not classify as missing only touches counters: the
ledger, the id logs, the batch counter, the break state and the created count
all stay put. -/
lemma processItem_notmissing (cfg : StepCfg) (lib : String) (it : Item)
    (st : RState) (hled : assocGet st.ledger (itemId lib it) = none)
    (hmiss : isMissing cfg.env it = false) :
    (processItem cfg lib it st).ledger = st.ledger ∧
    (processItem cfg lib it st).createdIds = st.createdIds ∧
    (processItem cfg lib it st).postedIds = st.postedIds ∧
    (processItem cfg lib it st).batch = st.batch ∧
    (processItem cfg lib it st).brk = st.brk ∧
    (processItem cfg lib it st).stats.batch_limit_reached =
      st.stats.batch_limit_reached ∧
    (processItem cfg lib it st).stats.requests_created =
      st.stats.requests_created := by
  rw [isMissing] at hmiss
  by_cases htype : it.type = "show"
  · rw [if_pos htype] at hmiss
    have hm := of_decide_eq_false hmiss
    push_neg at hm
    by_cases heps : it.episodes = 0
    · have h0 : processItem cfg lib it st = addExist st := by
        simp [processItem, hled, htype, heps]
      rw [h0]
      exact ⟨rfl, rfl, rfl, rfl, rfl, rfl, rfl⟩
    · have hcur := hm heps
      have h0 : processItem cfg lib it st =
          addExist (logQuery st (itemId lib it)) := by
        simp [processItem, hled, htype, heps, hcur]
      rw [h0]
      exact ⟨rfl, rfl, rfl, rfl, rfl, rfl, rfl⟩
  · rw [if_neg htype] at hmiss
    by_cases hmov : it.type = "movie"
    · rw [if_pos hmov] at hmiss
      have hfe : fileExistsNow cfg.env it = true := by
        cases hfe2 : fileExistsNow cfg.env it
        · rw [hfe2] at hmiss
          simp at hmiss
        · rfl
      have h0 : processItem cfg lib it st =
          addExist (logQuery st (itemId lib it)) := by
        simp [processItem, hled, htype, hmov, hfe]
      rw [h0]
      exact ⟨rfl, rfl, rfl, rfl, rfl, rfl, rfl⟩
    · have h0 : processItem cfg lib it st = addSkipped st := by
        simp [processItem, hled, htype, hmov]
      rw [h0]
      exact ⟨rfl, rfl, rfl, rfl, rfl, rfl, rfl⟩

/-- Claim C5: for a show that is not in the ledger and has backed-up episodes,
the driver queries the live episode count and classifies the item missing iff
the live count is strictly below the backed-up count (equality is never
missing); when the live query raises, the item is treated as not missing
(`already_exist`), an explicit fail-safe. -/
theorem C5_show_missing_rule (cfg : StepCfg) (lib : String) (it : Item)
    (st : RState) (htype : it.type = "show")
    (hled : assocGet st.ledger (itemId lib it) = none)
    (heps : 0 < it.episodes) :
    ((processItem cfg lib it st).stats.total_missing =
        st.stats.total_missing + 1 ↔
      currentEpisodes (cfg.env.plexQuery it.ratingKey) it.episodes <
        it.episodes) ∧
    ((processItem cfg lib it st).stats.already_exist =
        st.stats.already_exist + 1 ↔
      it.episodes ≤
        currentEpisodes (cfg.env.plexQuery it.ratingKey) it.episodes) ∧
    (cfg.env.plexQuery it.ratingKey = PlexQueryResult.raises →
      (processItem cfg lib it st).stats.total_missing =
        st.stats.total_missing ∧
      (processItem cfg lib it st).stats.already_exist =
        st.stats.already_exist + 1) ∧
    (processItem cfg lib it st).queriedIds =
      st.queriedIds ++ [itemId lib it] := by
  have heps' : it.episodes ≠ 0 := by omega
  by_cases hcur : it.episodes ≤
      currentEpisodes (cfg.env.plexQuery it.ratingKey) it.episodes
  · have h0 : processItem cfg lib it st =
        addExist (logQuery st (itemId lib it)) := by
      simp [processItem, hled, htype, heps', hcur]
    rw [h0]
    refine ⟨?_, ?_, ?_, rfl⟩
    · show st.stats.total_missing = st.stats.total_missing + 1 ↔ _
      constructor
      · intro hh
        omega
      · intro hh
        omega
    · show st.stats.already_exist + 1 = st.stats.already_exist + 1 ↔ _
      exact iff_of_true rfl hcur
    · intro _
      exact ⟨rfl, rfl⟩
  · have hmiss : isMissing cfg.env it = true := by
      rw [isMissing, if_pos htype]
      exact decide_eq_true ⟨heps', not_le.mp hcur⟩
    rw [processItem_missing cfg lib it st hled hmiss]
    obtain ⟨hg1, hg2, hg3⟩ := submitGate_preserves cfg it (itemId lib it)
      (addMissing (logQuery st (itemId lib it)))
    refine ⟨?_, ?_, ?_, ?_⟩
    · rw [hg1]
      show st.stats.total_missing + 1 = st.stats.total_missing + 1 ↔ _
      exact iff_of_true rfl (not_le.mp hcur)
    · rw [hg2]
      show st.stats.already_exist = st.stats.already_exist + 1 ↔ _
      constructor
      · intro hh
        omega
      · intro hh
        exact absurd hh hcur
    · intro hr
      have : currentEpisodes (cfg.env.plexQuery it.ratingKey) it.episodes =
          it.episodes := by
        rw [hr, currentEpisodes]
      omega
    · rw [hg3]
      rfl

/-- Exactly when the current filesystem check succeeds: a recorded, non-empty
path whose existence check returns `True` right now. -/
lemma fileExistsNow_iff (env : Env) (it : Item) :
    fileExistsNow env it = true ↔
      ∃ p, it.file_path = some p ∧ p ≠ "" ∧
        env.fileCheck p = FileCheck.found true := by
  cases hfp : it.file_path with
  | none => simp [fileExistsNow, truthyStr, hfp]
  | some p =>
    by_cases hp : p = ""
    · subst hp
      simp [fileExistsNow, truthyStr, hfp]
    · have ht : truthyStr (some p) = true := by simp [truthyStr, hp]
      cases hfc : env.fileCheck p with
      | raises => simp [fileExistsNow, hfp, ht, hfc, hp]
      | found b =>
        cases b
        · simp [fileExistsNow, hfp, ht, hfc, hp]
        · simp [fileExistsNow, hfp, ht, hfc, hp]

/-- Claim C6: a movie not in the ledger is classified missing iff its recorded
path is absent/empty or the existence check fails right now; the snapshot-time
`file_exists` flag is never consulted (the step is invariant under changing
it), so a movie stored with `file_exists = false` whose file exists now lands
in `already_exist`, not in the missing set. -/
theorem C6_movie_recheck (cfg : StepCfg) (lib : String) (it : Item)
    (st : RState) (htype : it.type = "movie")
    (hled : assocGet st.ledger (itemId lib it) = none) :
    ((processItem cfg lib it st).stats.total_missing =
        st.stats.total_missing + 1 ↔ fileExistsNow cfg.env it = false) ∧
    (fileExistsNow cfg.env it = true ↔
      ∃ p, it.file_path = some p ∧ p ≠ "" ∧
        cfg.env.fileCheck p = FileCheck.found true) ∧
    (∀ (b1 b2 : Bool) (it2 : Item) (st2 : RState),
      processItem cfg lib { it2 with file_exists := b1 } st2 =
        processItem cfg lib { it2 with file_exists := b2 } st2) ∧
    (it.file_exists = false → fileExistsNow cfg.env it = true →
      (processItem cfg lib it st).stats.already_exist =
        st.stats.already_exist + 1 ∧
      (processItem cfg lib it st).stats.total_missing =
        st.stats.total_missing) := by
  have hindep : ∀ (b1 b2 : Bool) (it2 : Item) (st2 : RState),
      processItem cfg lib { it2 with file_exists := b1 } st2 =
        processItem cfg lib { it2 with file_exists := b2 } st2 := by
    intro b1 b2 it2 st2
    cases it2
    rfl
  by_cases hfe : fileExistsNow cfg.env it = true
  · have h0 : processItem cfg lib it st =
        addExist (logQuery st (itemId lib it)) := by
      simp [processItem, hled, htype, hfe]
    rw [h0]
    refine ⟨?_, fileExistsNow_iff cfg.env it, hindep, ?_⟩
    · show st.stats.total_missing = st.stats.total_missing + 1 ↔ _
      constructor
      · intro hh
        omega
      · intro hh
        rw [hfe] at hh
        simp at hh
    · intro _ _
      exact ⟨rfl, rfl⟩
  · have hfe' : fileExistsNow cfg.env it = false := by
      cases hfe2 : fileExistsNow cfg.env it
      · rfl
      · exact absurd hfe2 hfe
    have hmiss : isMissing cfg.env it = true := by
      rw [isMissing, if_neg (by rw [htype]; intro hh; exact absurd hh (by decide)), if_pos htype]
      simp [hfe']
    rw [processItem_missing cfg lib it st hled hmiss]
    obtain ⟨hg1, hg2, hg3⟩ := submitGate_preserves cfg it (itemId lib it)
      (addMissing (logQuery st (itemId lib it)))
    refine ⟨?_, fileExistsNow_iff cfg.env it, hindep, ?_⟩
    · rw [hg1]
      show st.stats.total_missing + 1 = st.stats.total_missing + 1 ↔ _
      exact iff_of_true rfl hfe'
    · intro _ hcontra
      exact absurd hcontra hfe

/-- Claim C10: when the submission POST (after any single CSRF retry) settles
on a status outside 200/201/202 without raising, the item is counted in
`requests_skipped` — not in `errors` — no ledger entry is written and the
created bookkeeping is untouched, so the item will be re-attempted on a later
run against the same snapshot and ledger. -/
theorem C10_failed_submit (cfg : StepCfg) (lib : String) (it : Item)
    (st : RState) (s : Nat)
    (hled : assocGet st.ledger (itemId lib it) = none)
    (hmiss : isMissing cfg.env it = true)
    (hgate : ¬(truthyLimit cfg.batchLimit = true ∧
      cfg.batchLimit.getD 0 ≤ st.batch))
    (ht : truthyStr it.tmdb_id = true)
    (hp : (pyInt? (it.tmdb_id.getD "")).isSome = true)
    (hs : effectiveSubmit (cfg.env.submit (itemId lib it)) =
      SubmitOutcome.status s)
    (hfail : ¬(s = 200 ∨ s = 201 ∨ s = 202)) :
    (processItem cfg lib it st).stats.requests_skipped =
      st.stats.requests_skipped + 1 ∧
    (processItem cfg lib it st).stats.errors = st.stats.errors ∧
    (processItem cfg lib it st).stats.requests_created =
      st.stats.requests_created ∧
    (processItem cfg lib it st).ledger = st.ledger ∧
    (processItem cfg lib it st).createdIds = st.createdIds ∧
    assocGet (processItem cfg lib it st).ledger (itemId lib it) = none := by
  obtain ⟨k, hk⟩ := Option.isSome_iff_exists.mp hp
  have h0 : processItem cfg lib it st =
      addSkipped (logPost (addMissing (logQuery st (itemId lib it)))
        (itemId lib it)) := by
    rw [processItem_missing cfg lib it st hled hmiss, submitGate,
      if_neg (by simpa [addMissing, logQuery] using hgate), submitTry,
      if_pos ht, hk, hs]
    show (if s = 200 ∨ s = 201 ∨ s = 202 then
        recordCreated cfg.progressFile (itemId lib it)
          ⟨it.title, it.type, cfg.env.now⟩
          (logPost (addMissing (logQuery st (itemId lib it)))
            (itemId lib it))
      else addSkipped (logPost (addMissing (logQuery st (itemId lib it)))
        (itemId lib it))) =
      addSkipped (logPost (addMissing (logQuery st (itemId lib it)))
        (itemId lib it))
    rw [if_neg hfail]
  rw [h0]
  exact ⟨rfl, rfl, rfl, rfl, rfl, hled⟩

/-! ## Step lemmas for the batch characterization -/

lemma submitOk_elim (env : Env) (iid : String)
    (h : submitOk env iid = true) :
    ∃ s, effectiveSubmit (env.submit iid) = SubmitOutcome.status s ∧
      (s = 200 ∨ s = 201 ∨ s = 202) := by
  rw [submitOk] at h
  cases hs : effectiveSubmit (env.submit iid) with
  | raised =>
    rw [hs] at h
    simp at h
  | status s =>
    rw [hs] at h
    exact ⟨s, rfl, of_decide_eq_true h⟩

lemma tmdbOk_elim (it : Item) (h : tmdbOk it = true) :
    truthyStr it.tmdb_id = true ∧
      (pyInt? (it.tmdb_id.getD "")).isSome = true := by
  rw [tmdbOk, Bool.and_eq_true] at h
  exact h

/-- A missing new item below the cap, with a usable TMDB id and a successful
POST, gets booked as created. -/
lemma processItem_missing_success (cfg : StepCfg) (lib : String) (it : Item)
    (st : RState) (hled : assocGet st.ledger (itemId lib it) = none)
    (hmiss : isMissing cfg.env it = true)
    (hgate : ¬(truthyLimit cfg.batchLimit = true ∧
      cfg.batchLimit.getD 0 ≤ st.batch))
    (htm : tmdbOk it = true)
    (hsub : submitOk cfg.env (itemId lib it) = true) :
    processItem cfg lib it st =
      recordCreated cfg.progressFile (itemId lib it)
        ⟨it.title, it.type, cfg.env.now⟩
        (logPost (addMissing (logQuery st (itemId lib it)))
          (itemId lib it)) := by
  obtain ⟨ht, hp⟩ := tmdbOk_elim it htm
  obtain ⟨k, hk⟩ := Option.isSome_iff_exists.mp hp
  obtain ⟨s, hs, hsok⟩ := submitOk_elim cfg.env (itemId lib it) hsub
  rw [processItem_missing cfg lib it st hled hmiss, submitGate,
    if_neg (by simpa [addMissing, logQuery] using hgate), submitTry,
    if_pos ht, hk, hs]
  show (if s = 200 ∨ s = 201 ∨ s = 202 then
      recordCreated cfg.progressFile (itemId lib it)
        ⟨it.title, it.type, cfg.env.now⟩
        (logPost (addMissing (logQuery st (itemId lib it))) (itemId lib it))
    else addSkipped (logPost (addMissing (logQuery st (itemId lib it)))
      (itemId lib it))) = _
  rw [if_pos hsok]

/-- A missing new item below the cap with a usable TMDB id is POSTed, whatever
the submission outcome. -/
lemma processItem_missing_posts (cfg : StepCfg) (lib : String) (it : Item)
    (st : RState) (hled : assocGet st.ledger (itemId lib it) = none)
    (hmiss : isMissing cfg.env it = true)
    (hgate : ¬(truthyLimit cfg.batchLimit = true ∧
      cfg.batchLimit.getD 0 ≤ st.batch))
    (htm : tmdbOk it = true) :
    (processItem cfg lib it st).postedIds =
      st.postedIds ++ [itemId lib it] := by
  obtain ⟨ht, hp⟩ := tmdbOk_elim it htm
  obtain ⟨k, hk⟩ := Option.isSome_iff_exists.mp hp
  rw [processItem_missing cfg lib it st hled hmiss, submitGate,
    if_neg (by simpa [addMissing, logQuery] using hgate), submitTry,
    if_pos ht, hk]
  cases hs : effectiveSubmit (cfg.env.submit (itemId lib it)) with
  | raised => rfl
  | status s =>
    show (if s = 200 ∨ s = 201 ∨ s = 202 then
        recordCreated cfg.progressFile (itemId lib it)
          ⟨it.title, it.type, cfg.env.now⟩
          (logPost (addMissing (logQuery st (itemId lib it)))
            (itemId lib it))
      else addSkipped (logPost (addMissing (logQuery st (itemId lib it)))
        (itemId lib it))).postedIds = _
    by_cases hok : s = 200 ∨ s = 201 ∨ s = 202
    · rw [if_pos hok]
      rfl
    · rw [if_neg hok]
      rfl

/-- With a falsy batch limit the gate can never fire: the break state and the
`batch_limit_reached` flag pass through every iteration unchanged. -/
lemma processItem_nolimit_brk (cfg : StepCfg) (lib : String) (it : Item)
    (st : RState) (hbl : truthyLimit cfg.batchLimit = false) :
    (processItem cfg lib it st).brk = st.brk ∧
    (processItem cfg lib it st).stats.batch_limit_reached =
      st.stats.batch_limit_reached := by
  rcases processItem_cases cfg lib it st with h0 |
    ⟨hnone, h0 | h0 | ⟨htr, _, h0⟩ | h0 | h0 | h0 | h0 | h0⟩
  · rw [h0]; exact ⟨rfl, rfl⟩
  · rw [h0]; exact ⟨rfl, rfl⟩
  · rw [h0]; exact ⟨rfl, rfl⟩
  · rw [htr] at hbl; exact absurd hbl (by simp)
  · rw [h0]; exact ⟨rfl, rfl⟩
  · rw [h0]; exact ⟨rfl, rfl⟩
  · rw [h0]; exact ⟨rfl, rfl⟩
  · rw [h0]; exact ⟨rfl, rfl⟩
  · rw [h0]; exact ⟨rfl, rfl⟩

lemma processItems_nolimit_brk (cfg : StepCfg) (lib : String)
    (hbl : truthyLimit cfg.batchLimit = false) :
    ∀ (items : List Item) (st : RState),
      (processItems cfg lib items st).brk = st.brk ∧
      (processItems cfg lib items st).stats.batch_limit_reached =
        st.stats.batch_limit_reached := by
  intro items
  induction items with
  | nil => intro st; exact ⟨rfl, rfl⟩
  | cons it rest ih =>
    intro st
    obtain ⟨hb, hf⟩ := processItem_nolimit_brk cfg lib it st hbl
    rw [processItems]
    by_cases hbrk : (processItem cfg lib it st).brk
    · rw [if_pos hbrk]
      exact ⟨hb, hf⟩
    · rw [if_neg hbrk]
      obtain ⟨hb2, hf2⟩ := ih (processItem cfg lib it st)
      exact ⟨hb2.trans hb, hf2.trans hf⟩

lemma processLibs_nolimit_brk (cfg : StepCfg)
    (hbl : truthyLimit cfg.batchLimit = false) :
    ∀ (libsL : List (String × List Item)) (st : RState),
      (processLibs cfg libsL st).brk = st.brk ∧
      (processLibs cfg libsL st).stats.batch_limit_reached =
        st.stats.batch_limit_reached := by
  intro libsL
  induction libsL with
  | nil => intro st; exact ⟨rfl, rfl⟩
  | cons p rest ih =>
    obtain ⟨lib, items⟩ := p
    intro st
    obtain ⟨hb, hf⟩ := processItems_nolimit_brk cfg lib hbl items st
    rw [processLibs]
    by_cases hflag : (processItems cfg lib items st).stats.batch_limit_reached
    · rw [if_pos hflag]
      exact ⟨hb, hf⟩
    · rw [if_neg hflag]
      obtain ⟨hb2, hf2⟩ := ih (processItems cfg lib items st)
      exact ⟨hb2.trans hb, hf2.trans hf⟩

/-- The POST log only grows. -/
lemma posted_mono_processItem (cfg : StepCfg) (lib : String) (it : Item)
    (st : RState) (id : String) (h : id ∈ st.postedIds) :
    id ∈ (processItem cfg lib it st).postedIds := by
  rcases processItem_cases cfg lib it st with h0 |
    ⟨hnone, h0 | h0 | ⟨_, _, h0⟩ | h0 | h0 | h0 | h0 | h0⟩ <;> rw [h0] <;>
    simp only [addSkipped, addExist, setFlag, addMissing, addError, logQuery,
      logPost, recordCreated] <;>
    first
      | exact h
      | exact List.mem_append.mpr (Or.inl h)

lemma posted_mono_processItems (cfg : StepCfg) (lib : String) :
    ∀ (items : List Item) (st : RState) (id : String), id ∈ st.postedIds →
      id ∈ (processItems cfg lib items st).postedIds := by
  intro items
  induction items with
  | nil => intro st id h; exact h
  | cons it rest ih =>
    intro st id h
    rw [processItems]
    by_cases hbrk : (processItem cfg lib it st).brk
    · rw [if_pos hbrk]
      exact posted_mono_processItem cfg lib it st id h
    · rw [if_neg hbrk]
      exact ih _ _ (posted_mono_processItem cfg lib it st id h)

lemma posted_mono_processLibs (cfg : StepCfg) :
    ∀ (libsL : List (String × List Item)) (st : RState) (id : String),
      id ∈ st.postedIds → id ∈ (processLibs cfg libsL st).postedIds := by
  intro libsL
  induction libsL with
  | nil => intro st id h; exact h
  | cons p rest ih =>
    obtain ⟨lib, items⟩ := p
    intro st id h
    rw [processLibs]
    by_cases hflag : (processItems cfg lib items st).stats.batch_limit_reached
    · rw [if_pos hflag]
      exact posted_mono_processItems cfg lib items st id h
    · rw [if_neg hflag]
      exact ih _ _ (posted_mono_processItems cfg lib items st id h)

/-! ## Characterization of a run under the batch cap -/

lemma missingIdsOf_cons (env : Env) (keys0 : List String) (lib : String)
    (it : Item) (rest : List Item) :
    missingIdsOf env keys0 lib (it :: rest) =
      if missingNew env keys0 lib it = true
      then itemId lib it :: missingIdsOf env keys0 lib rest
      else missingIdsOf env keys0 lib rest := by
  by_cases h : missingNew env keys0 lib it = true
  · simp [missingIdsOf, List.filter_cons, h]
  · have h' : missingNew env keys0 lib it = false := by
      cases hh : missingNew env keys0 lib it
      · rfl
      · exact absurd hh h
    simp [missingIdsOf, List.filter_cons, h']

lemma missingNew_false_of_mem (env : Env) (keys0 : List String) (lib : String)
    (it : Item) (h : itemId lib it ∈ keys0) :
    missingNew env keys0 lib it = false := by
  have hc : keys0.contains (itemId lib it) = true := by simpa using h
  rw [missingNew, hc]
  rfl

lemma missingNew_eq_of_not_mem (env : Env) (keys0 : List String)
    (lib : String) (it : Item) (h : itemId lib it ∉ keys0) :
    missingNew env keys0 lib it = isMissing env it := by
  have hc : keys0.contains (itemId lib it) = false := by
    cases hh : keys0.contains (itemId lib it)
    · rfl
    · exact absurd (by simpa using hh) h
  rw [missingNew, hc]
  rfl

lemma mem_keys_condSet (pf : Bool) (l : Ledger) (iid id : String)
    (e : LedgerEntry) (hne : id ≠ iid) :
    (id ∈ assocKeys (if pf then assocSet l iid e else l)) ↔
      id ∈ assocKeys l := by
  cases pf
  · simp
  · simp [mem_assocKeys_set, hne]

/-- With a truthy batch limit `N`, an item loop creates (and POSTs) exactly the
first `N - batch` missing-and-new ids, advances the batch counter by
`min (N - batch) (number of missing-and-new ids)`, and sets the
limit-reached flag exactly when the missing-and-new ids outnumber the
remaining capacity. -/
lemma processItems_char_limit (cfg : StepCfg) (keys0 : List String) (N : Nat)
    (hbl : cfg.batchLimit = some N) (hN : N ≠ 0) (lib : String) :
    ∀ (items : List Item) (st : RState),
      st.brk = false →
      st.stats.batch_limit_reached = false →
      st.batch ≤ N →
      (∀ it ∈ items, (itemId lib it ∈ assocKeys st.ledger ↔
        itemId lib it ∈ keys0)) →
      (itemIdsOf lib items).Nodup →
      (∀ it ∈ items, isMissing cfg.env it = true →
        tmdbOk it = true ∧ submitOk cfg.env (itemId lib it) = true) →
      (processItems cfg lib items st).createdIds =
        st.createdIds ++
          (missingIdsOf cfg.env keys0 lib items).take (N - st.batch) ∧
      (processItems cfg lib items st).postedIds =
        st.postedIds ++
          (missingIdsOf cfg.env keys0 lib items).take (N - st.batch) ∧
      (processItems cfg lib items st).batch =
        st.batch +
          min (N - st.batch) (missingIdsOf cfg.env keys0 lib items).length ∧
      (processItems cfg lib items st).stats.requests_created =
        st.stats.requests_created +
          min (N - st.batch) (missingIdsOf cfg.env keys0 lib items).length ∧
      (processItems cfg lib items st).stats.batch_limit_reached =
        decide (N - st.batch <
          (missingIdsOf cfg.env keys0 lib items).length) ∧
      (processItems cfg lib items st).brk =
        decide (N - st.batch <
          (missingIdsOf cfg.env keys0 lib items).length) := by
  intro items
  induction items with
  | nil =>
    intro st hbrk hflag hbatch hH hnd hP
    refine ⟨by simp [processItems, missingIdsOf],
      by simp [processItems, missingIdsOf],
      by simp [processItems, missingIdsOf],
      by simp [processItems, missingIdsOf],
      by simp [processItems, missingIdsOf, hflag],
      by simp [processItems, missingIdsOf, hbrk]⟩
  | cons it rest ih =>
    intro st hbrk hflag hbatch hH hnd hP
    have hH_it := hH it (List.mem_cons_self it rest)
    have hH_rest : ∀ it' ∈ rest, (itemId lib it' ∈ assocKeys st.ledger ↔
        itemId lib it' ∈ keys0) :=
      fun it' h' => hH it' (List.mem_cons_of_mem it h')
    rw [itemIdsOf, List.map_cons] at hnd
    obtain ⟨hnd1, hnd2⟩ := List.nodup_cons.mp hnd
    have hP_rest : ∀ it' ∈ rest, isMissing cfg.env it' = true →
        tmdbOk it' = true ∧ submitOk cfg.env (itemId lib it') = true :=
      fun it' h' => hP it' (List.mem_cons_of_mem it h')
    rw [processItems]
    by_cases hk0 : itemId lib it ∈ keys0
    · have hsome : (assocGet st.ledger (itemId lib it)).isSome = true :=
        (assocGet_isSome st.ledger (itemId lib it)).mpr (hH_it.mpr hk0)
      have hstep := processItem_ledgered cfg lib it st hsome
      rw [hstep, if_neg (by simp [addSkipped, hbrk]),
        missingIdsOf_cons cfg.env keys0 lib it rest,
        if_neg (by rw [missingNew_false_of_mem cfg.env keys0 lib it hk0]
                   simp)]
      exact ih (addSkipped st) hbrk hflag hbatch hH_rest hnd2 hP_rest
    · have hled : assocGet st.ledger (itemId lib it) = none :=
        (assocGet_eq_none st.ledger (itemId lib it)).mpr
          (fun hmem => hk0 (hH_it.mp hmem))
      have hmn := missingNew_eq_of_not_mem cfg.env keys0 lib it hk0
      by_cases hmiss : isMissing cfg.env it = true
      · rw [missingIdsOf_cons cfg.env keys0 lib it rest,
          if_pos (hmn.trans hmiss)]
        by_cases hlt : st.batch < N
        · have hgate : ¬(truthyLimit cfg.batchLimit = true ∧
              cfg.batchLimit.getD 0 ≤ st.batch) := by
            rintro ⟨-, hge⟩
            rw [hbl, Option.getD_some] at hge
            omega
          obtain ⟨htm, hsub⟩ := hP it (List.mem_cons_self it rest) hmiss
          have hstep := processItem_missing_success cfg lib it st hled hmiss
            hgate htm hsub
          rw [hstep, if_neg (by simp [recordCreated, logPost, addMissing,
            logQuery, hbrk])]
          have hHs : ∀ it' ∈ rest, (itemId lib it' ∈ assocKeys
              (recordCreated cfg.progressFile (itemId lib it)
                ⟨it.title, it.type, cfg.env.now⟩
                (logPost (addMissing (logQuery st (itemId lib it)))
                  (itemId lib it))).ledger ↔ itemId lib it' ∈ keys0) := by
            intro it' h'
            have hne : itemId lib it' ≠ itemId lib it := by
              intro he
              exact hnd1 (he ▸ List.mem_map_of_mem (itemId lib) h')
            exact (mem_keys_condSet cfg.progressFile st.ledger (itemId lib it)
              (itemId lib it') ⟨it.title, it.type, cfg.env.now⟩ hne).trans
              (hH_rest it' h')
          obtain ⟨ih1, ih2, ih3, ih4, ih5, ih6⟩ := ih
            (recordCreated cfg.progressFile (itemId lib it)
              ⟨it.title, it.type, cfg.env.now⟩
              (logPost (addMissing (logQuery st (itemId lib it)))
                (itemId lib it)))
            hbrk hflag (by show st.batch + 1 ≤ N; omega) hHs hnd2 hP_rest
          have hb2 : (recordCreated cfg.progressFile (itemId lib it)
              ⟨it.title, it.type, cfg.env.now⟩
              (logPost (addMissing (logQuery st (itemId lib it)))
                (itemId lib it))).batch = st.batch + 1 := rfl
          have hc2 : (recordCreated cfg.progressFile (itemId lib it)
              ⟨it.title, it.type, cfg.env.now⟩
              (logPost (addMissing (logQuery st (itemId lib it)))
                (itemId lib it))).createdIds =
              st.createdIds ++ [itemId lib it] := rfl
          have hp2 : (recordCreated cfg.progressFile (itemId lib it)
              ⟨it.title, it.type, cfg.env.now⟩
              (logPost (addMissing (logQuery st (itemId lib it)))
                (itemId lib it))).postedIds =
              st.postedIds ++ [itemId lib it] := rfl
          have hr2 : (recordCreated cfg.progressFile (itemId lib it)
              ⟨it.title, it.type, cfg.env.now⟩
              (logPost (addMissing (logQuery st (itemId lib it)))
                (itemId lib it))).stats.requests_created =
              st.stats.requests_created + 1 := rfl
          rw [hb2, hc2] at ih1
          rw [hb2, hp2] at ih2
          rw [hb2] at ih3 ih5 ih6
          rw [hb2, hr2] at ih4
          have hcap : N - st.batch = (N - (st.batch + 1)) + 1 := by omega
          refine ⟨?_, ?_, ?_, ?_, ?_, ?_⟩
          · rw [ih1, hcap, List.take_succ_cons, List.append_assoc,
              List.singleton_append]
          · rw [ih2, hcap, List.take_succ_cons, List.append_assoc,
              List.singleton_append]
          · rw [ih3, List.length_cons]
            omega
          · rw [ih4, List.length_cons]
            omega
          · rw [ih5, List.length_cons]
            exact decide_eq_decide.mpr (by omega)
          · rw [ih6, List.length_cons]
            exact decide_eq_decide.mpr (by omega)
        · have heq : st.batch = N := by omega
          have h1 : truthyLimit cfg.batchLimit = true := by
            rw [hbl, truthyLimit]
            simp [hN]
          have h2 : cfg.batchLimit.getD 0 ≤
              (addMissing (logQuery st (itemId lib it))).batch := by
            rw [hbl, Option.getD_some]
            show N ≤ st.batch
            omega
          have hstep : processItem cfg lib it st =
              setFlag (addMissing (logQuery st (itemId lib it))) := by
            rw [processItem_missing cfg lib it st hled hmiss, submitGate,
              if_pos ⟨h1, h2⟩]
          rw [hstep, if_pos (by simp [setFlag])]
          have hcap0 : N - st.batch = 0 := by omega
          rw [hcap0]
          refine ⟨by simp [setFlag, addMissing, logQuery],
            by simp [setFlag, addMissing, logQuery],
            by simp [setFlag, addMissing, logQuery],
            by simp [setFlag, addMissing, logQuery],
            by simp [setFlag], by simp [setFlag]⟩
      · have hmiss' : isMissing cfg.env it = false := by
          cases hh : isMissing cfg.env it
          · rfl
          · exact absurd hh hmiss
        obtain ⟨e1, e2, e3, e4, e5, e6, e7⟩ :=
          processItem_notmissing cfg lib it st hled hmiss'
        rw [if_neg (show ¬(processItem cfg lib it st).brk = true by
          rw [e5, hbrk]; simp)]
        rw [missingIdsOf_cons cfg.env keys0 lib it rest,
          if_neg (show ¬missingNew cfg.env keys0 lib it = true by
            rw [hmn, hmiss']; simp)]
        have hHs : ∀ it' ∈ rest, (itemId lib it' ∈ assocKeys
            (processItem cfg lib it st).ledger ↔
            itemId lib it' ∈ keys0) := by
          intro it' h'
          rw [e1]
          exact hH_rest it' h'
        obtain ⟨ih1, ih2, ih3, ih4, ih5, ih6⟩ := ih (processItem cfg lib it st)
          (e5.trans hbrk) (e6.trans hflag) (by rw [e4]; exact hbatch) hHs hnd2
          hP_rest
        rw [e4] at ih3 ih4 ih5 ih6
        exact ⟨by rw [ih1, e2, e4], by rw [ih2, e3, e4], by rw [ih3],
          by rw [ih4, e7], by rw [ih5], by rw [ih6]⟩

lemma allItemIds_cons (lib : String) (items : List Item)
    (rest : List (String × List Item)) :
    allItemIds ((lib, items) :: rest) =
      itemIdsOf lib items ++ allItemIds rest := rfl

lemma allMissingIds_cons (env : Env) (keys0 : List String) (lib : String)
    (items : List Item) (rest : List (String × List Item)) :
    allMissingIds env keys0 ((lib, items) :: rest) =
      missingIdsOf env keys0 lib items ++ allMissingIds env keys0 rest := rfl

lemma mem_allItemIds (lib : String) (items : List Item) (it : Item) :
    ∀ libsL : List (String × List Item), (lib, items) ∈ libsL → it ∈ items →
      itemId lib it ∈ allItemIds libsL := by
  intro libsL
  induction libsL with
  | nil =>
    intro h
    exact absurd h (List.not_mem_nil _)
  | cons p rest ih =>
    intro hmem hit
    rcases List.mem_cons.mp hmem with h | h
    · rw [← h, allItemIds_cons]
      exact List.mem_append.mpr (Or.inl (List.mem_map_of_mem (itemId lib) hit))
    · obtain ⟨l2, its2⟩ := p
      rw [allItemIds_cons]
      exact List.mem_append.mpr (Or.inr (ih h hit))

/-- Library-level version of `processItems_char_limit`. -/
lemma processLibs_char_limit (cfg : StepCfg) (keys0 : List String) (N : Nat)
    (hbl : cfg.batchLimit = some N) (hN : N ≠ 0) :
    ∀ (libsL : List (String × List Item)) (st : RState),
      st.brk = false →
      st.stats.batch_limit_reached = false →
      st.batch ≤ N →
      (∀ lib items, (lib, items) ∈ libsL → ∀ it ∈ items,
        (itemId lib it ∈ assocKeys st.ledger ↔ itemId lib it ∈ keys0)) →
      (allItemIds libsL).Nodup →
      (∀ lib items, (lib, items) ∈ libsL → ∀ it ∈ items,
        isMissing cfg.env it = true →
        tmdbOk it = true ∧ submitOk cfg.env (itemId lib it) = true) →
      (processLibs cfg libsL st).createdIds =
        st.createdIds ++
          (allMissingIds cfg.env keys0 libsL).take (N - st.batch) ∧
      (processLibs cfg libsL st).postedIds =
        st.postedIds ++
          (allMissingIds cfg.env keys0 libsL).take (N - st.batch) ∧
      (processLibs cfg libsL st).stats.requests_created =
        st.stats.requests_created +
          min (N - st.batch) (allMissingIds cfg.env keys0 libsL).length ∧
      (processLibs cfg libsL st).stats.batch_limit_reached =
        decide (N - st.batch <
          (allMissingIds cfg.env keys0 libsL).length) := by
  intro libsL
  induction libsL with
  | nil =>
    intro st hbrk hflag hbatch hH hnd hP
    refine ⟨by simp [processLibs, allMissingIds],
      by simp [processLibs, allMissingIds],
      by simp [processLibs, allMissingIds],
      by simp [processLibs, allMissingIds, hflag]⟩
  | cons p rest ih =>
    obtain ⟨lib, items⟩ := p
    intro st hbrk hflag hbatch hH hnd hP
    have hH_head : ∀ it ∈ items, (itemId lib it ∈ assocKeys st.ledger ↔
        itemId lib it ∈ keys0) :=
      fun it h => hH lib items (List.mem_cons_self _ _) it h
    have hH_rest : ∀ lib' items', (lib', items') ∈ rest → ∀ it ∈ items',
        (itemId lib' it ∈ assocKeys st.ledger ↔ itemId lib' it ∈ keys0) :=
      fun lib' items' h' it hit =>
        hH lib' items' (List.mem_cons_of_mem _ h') it hit
    rw [allItemIds_cons] at hnd
    obtain ⟨hnd1, hnd2, hdisj⟩ := List.nodup_append.mp hnd
    have hP_head : ∀ it ∈ items, isMissing cfg.env it = true →
        tmdbOk it = true ∧ submitOk cfg.env (itemId lib it) = true :=
      fun it h => hP lib items (List.mem_cons_self _ _) it h
    have hP_rest : ∀ lib' items', (lib', items') ∈ rest → ∀ it ∈ items',
        isMissing cfg.env it = true →
        tmdbOk it = true ∧ submitOk cfg.env (itemId lib' it) = true :=
      fun lib' items' h' it hit =>
        hP lib' items' (List.mem_cons_of_mem _ h') it hit
    obtain ⟨c1, c2, c3, c4, c5, c6⟩ := processItems_char_limit cfg keys0 N hbl
      hN lib items st hbrk hflag hbatch hH_head hnd1 hP_head
    rw [processLibs, allMissingIds_cons]
    by_cases hcase : N - st.batch <
        (missingIdsOf cfg.env keys0 lib items).length
    · rw [if_pos (by rw [c5]; exact decide_eq_true hcase)]
      have hz : N - st.batch -
          (missingIdsOf cfg.env keys0 lib items).length = 0 := by omega
      refine ⟨?_, ?_, ?_, ?_⟩
      · rw [c1, List.take_append_eq_append_take, hz, List.take_zero,
          List.append_nil]
      · rw [c2, List.take_append_eq_append_take, hz, List.take_zero,
          List.append_nil]
      · rw [c4, List.length_append]
        have := Nat.le_refl 0
        omega
      · rw [c5, List.length_append]
        exact decide_eq_decide.mpr (by omega)
    · have hlen1 : (missingIdsOf cfg.env keys0 lib items).length ≤
          N - st.batch := by omega
      rw [if_neg (show ¬(processItems cfg lib items
          st).stats.batch_limit_reached = true by rw [c5]; simpa using hcase)]
      have hb1 : (processItems cfg lib items st).batch =
          st.batch + (missingIdsOf cfg.env keys0 lib items).length := by
        rw [c3]
        omega
      have hr1 : (processItems cfg lib items st).stats.requests_created =
          st.stats.requests_created +
            (missingIdsOf cfg.env keys0 lib items).length := by
        rw [c4]
        omega
      have hcr1 : (processItems cfg lib items st).createdIds =
          st.createdIds ++ missingIdsOf cfg.env keys0 lib items := by
        rw [c1, List.take_of_length_le hlen1]
      have hpo1 : (processItems cfg lib items st).postedIds =
          st.postedIds ++ missingIdsOf cfg.env keys0 lib items := by
        rw [c2, List.take_of_length_le hlen1]
      have hbrk1 : (processItems cfg lib items st).brk = false :=
        c6.trans (decide_eq_false hcase)
      have hflag1 : (processItems cfg lib items st).stats.batch_limit_reached
          = false := c5.trans (decide_eq_false hcase)
      have hbatch1 : (processItems cfg lib items st).batch ≤ N := by
        rw [hb1]
        omega
      have hHs : ∀ lib' items', (lib', items') ∈ rest → ∀ it ∈ items',
          (itemId lib' it ∈
            assocKeys (processItems cfg lib items st).ledger ↔
            itemId lib' it ∈ keys0) := by
        intro lib' items' h' it hit
        constructor
        · intro hmem
          rcases ledgerKeys_bound_processItems cfg lib items st _ hmem with
            h2 | h2
          · exact (hH_rest lib' items' h' it hit).mp h2
          · exact absurd (mem_allItemIds lib' items' it rest h' hit)
              (hdisj h2)
        · intro hk
          exact ledgerKeys_mono_processItems cfg lib items st _
            ((hH_rest lib' items' h' it hit).mpr hk)
      obtain ⟨d1, d2, d3, d4⟩ := ih (processItems cfg lib items st) hbrk1
        hflag1 hbatch1 hHs hnd2 hP_rest
      rw [hb1] at d1 d2 d3 d4
      rw [hcr1] at d1
      rw [hpo1] at d2
      rw [hr1] at d3
      have hsub : N - (st.batch +
          (missingIdsOf cfg.env keys0 lib items).length) =
          N - st.batch - (missingIdsOf cfg.env keys0 lib items).length := by
        omega
      refine ⟨?_, ?_, ?_, ?_⟩
      · rw [d1, hsub, List.take_append_eq_append_take,
          List.take_of_length_le hlen1, List.append_assoc]
      · rw [d2, hsub, List.take_append_eq_append_take,
          List.take_of_length_le hlen1, List.append_assoc]
      · rw [d3, List.length_append]
        omega
      · rw [d4, List.length_append]
        exact decide_eq_decide.mpr (by omega)

/-- Claim C2: with `batchLimit = N ≥ 1` against a snapshot whose
missing-and-new set has more than `N` items, and assuming every missing item
has a usable TMDB id and every submission POST succeeds, exactly the first `N`
missing items are newly submitted (`requests_created = N`), the
`batch_limit_reached` flag is set, and nothing beyond those `N` items is
POSTed. -/
theorem C2_batch_cap (env : Env) (libs : List (String × List Item)) (N : Nat)
    (loaded : Ledger) (pf : Bool) (hN : 1 ≤ N)
    (hnd : (allItemIds libs).Nodup)
    (hP : ∀ p ∈ libs, ∀ it ∈ p.2, isMissing env it = true →
      tmdbOk it = true ∧ submitOk env (itemId p.1 it) = true)
    (hM : N < (allMissingIds env
      (assocKeys (initState pf loaded).ledger) libs).length) :
    (restore_to_overseerr env libs (some N) pf loaded).stats.requests_created
        = N ∧
    (restore_to_overseerr env libs (some N) pf
        loaded).stats.batch_limit_reached = true ∧
    (restore_to_overseerr env libs (some N) pf loaded).createdIds =
      (allMissingIds env (assocKeys (initState pf loaded).ledger)
        libs).take N ∧
    (restore_to_overseerr env libs (some N) pf loaded).postedIds =
      (allMissingIds env (assocKeys (initState pf loaded).ledger)
        libs).take N := by
  obtain ⟨d1, d2, d3, d4⟩ := processLibs_char_limit ⟨env, some N, pf⟩
    (assocKeys (initState pf loaded).ledger) N rfl (by omega) libs
    (initState pf loaded) rfl rfl (by show 0 ≤ N; omega)
    (fun lib items h it hit => Iff.rfl) hnd
    (fun lib items h it hit => hP (lib, items) h it hit)
  have hb0 : (initState pf loaded).batch = 0 := rfl
  have hr0 : (initState pf loaded).stats.requests_created = 0 := rfl
  have hc0 : (initState pf loaded).createdIds = ([] : List String) := rfl
  have hp0 : (initState pf loaded).postedIds = ([] : List String) := rfl
  have he : (⟨env, some N, pf⟩ : StepCfg).env = env := rfl
  rw [he] at d1 d2 d3 d4
  rw [hb0, hc0] at d1
  rw [hb0, hp0] at d2
  rw [hb0, hr0] at d3
  rw [hb0] at d4
  rw [Nat.sub_zero] at d1 d2 d3 d4
  refine ⟨?_, ?_, ?_, ?_⟩
  · rw [restore_to_overseerr, d3]
    omega
  · rw [restore_to_overseerr, d4]
    exact decide_eq_true hM
  · rw [restore_to_overseerr, d1, List.nil_append]
  · rw [restore_to_overseerr, d2, List.nil_append]

lemma missingNew_elim (env : Env) (keys0 : List String) (lib : String)
    (it : Item) (h : missingNew env keys0 lib it = true) :
    itemId lib it ∉ keys0 ∧ isMissing env it = true := by
  rw [missingNew, Bool.and_eq_true] at h
  obtain ⟨h1, h2⟩ := h
  refine ⟨?_, h2⟩
  intro hmem
  have hc : keys0.contains (itemId lib it) = true := by simpa using hmem
  rw [hc] at h1
  simp at h1

/-- With a falsy batch limit, every missing-and-new item with a usable TMDB id
gets POSTed by the item loop. -/
lemma processItems_posted_nolimit (cfg : StepCfg) (keys0 : List String)
    (lib : String) (hbl : truthyLimit cfg.batchLimit = false) :
    ∀ (items : List Item) (st : RState),
      st.brk = false →
      (∀ it ∈ items, (itemId lib it ∈ assocKeys st.ledger ↔
        itemId lib it ∈ keys0)) →
      (itemIdsOf lib items).Nodup →
      ∀ it ∈ items, missingNew cfg.env keys0 lib it = true →
        tmdbOk it = true →
        itemId lib it ∈ (processItems cfg lib items st).postedIds := by
  intro items
  induction items with
  | nil =>
    intro st hbrk hH hnd it hit
    exact absurd hit (List.not_mem_nil it)
  | cons it rest ih =>
    intro st hbrk hH hnd it' hit' hmn htm
    have hH_it := hH it (List.mem_cons_self it rest)
    have hH_rest : ∀ it2 ∈ rest, (itemId lib it2 ∈ assocKeys st.ledger ↔
        itemId lib it2 ∈ keys0) :=
      fun it2 h2 => hH it2 (List.mem_cons_of_mem it h2)
    rw [itemIdsOf, List.map_cons] at hnd
    obtain ⟨hnd1, hnd2⟩ := List.nodup_cons.mp hnd
    rw [processItems]
    rcases List.mem_cons.mp hit' with heq | hmem
    · subst heq
      obtain ⟨hk0, hmiss⟩ := missingNew_elim cfg.env keys0 lib it' hmn
      have hled : assocGet st.ledger (itemId lib it') = none :=
        (assocGet_eq_none st.ledger (itemId lib it')).mpr
          (fun hm => hk0 (hH_it.mp hm))
      have hgate : ¬(truthyLimit cfg.batchLimit = true ∧
          cfg.batchLimit.getD 0 ≤ st.batch) := by
        rintro ⟨h1, -⟩
        rw [hbl] at h1
        exact absurd h1 (by simp)
      have hmem2 : itemId lib it' ∈ (processItem cfg lib it' st).postedIds := by
        rw [processItem_missing_posts cfg lib it' st hled hmiss hgate htm]
        exact List.mem_append.mpr (Or.inr (List.mem_singleton.mpr rfl))
      by_cases hbrk2 : (processItem cfg lib it' st).brk
      · rw [if_pos hbrk2]
        exact hmem2
      · rw [if_neg hbrk2]
        exact posted_mono_processItems cfg lib rest _ _ hmem2
    · have hbrk2 : (processItem cfg lib it st).brk = false :=
        (processItem_nolimit_brk cfg lib it st hbl).1.trans hbrk
      rw [if_neg (by rw [hbrk2]; simp)]
      refine ih (processItem cfg lib it st) hbrk2 ?_ hnd2 it' hmem hmn htm
      intro it2 h2
      have hne : itemId lib it2 ≠ itemId lib it := by
        intro he
        exact hnd1 (he ▸ List.mem_map_of_mem (itemId lib) h2)
      constructor
      · intro hm2
        rcases ledgerKeys_bound_processItem cfg lib it st _ hm2 with h3 | h3
        · exact (hH_rest it2 h2).mp h3
        · exact absurd h3 hne
      · intro hk
        exact ledgerKeys_mono_processItem cfg lib it st _
          ((hH_rest it2 h2).mpr hk)

/-- With a falsy batch limit, every missing-and-new item with a usable TMDB id
gets POSTed by the whole run. -/
lemma processLibs_posted_nolimit (cfg : StepCfg) (keys0 : List String)
    (hbl : truthyLimit cfg.batchLimit = false) :
    ∀ (libsL : List (String × List Item)) (st : RState),
      st.brk = false →
      st.stats.batch_limit_reached = false →
      (∀ lib' items', (lib', items') ∈ libsL → ∀ it ∈ items',
        (itemId lib' it ∈ assocKeys st.ledger ↔ itemId lib' it ∈ keys0)) →
      (allItemIds libsL).Nodup →
      ∀ lib' items' it, (lib', items') ∈ libsL → it ∈ items' →
        missingNew cfg.env keys0 lib' it = true → tmdbOk it = true →
        itemId lib' it ∈ (processLibs cfg libsL st).postedIds := by
  intro libsL
  induction libsL with
  | nil =>
    intro st hbrk hflag hH hnd lib' items' it hpair
    exact absurd hpair (List.not_mem_nil _)
  | cons p rest ih =>
    obtain ⟨lib, items⟩ := p
    intro st hbrk hflag hH hnd lib' items' it hpair hit hmn htm
    have hH_head : ∀ it2 ∈ items, (itemId lib it2 ∈ assocKeys st.ledger ↔
        itemId lib it2 ∈ keys0) :=
      fun it2 h2 => hH lib items (List.mem_cons_self _ _) it2 h2
    have hH_rest : ∀ lib2 items2, (lib2, items2) ∈ rest → ∀ it2 ∈ items2,
        (itemId lib2 it2 ∈ assocKeys st.ledger ↔ itemId lib2 it2 ∈ keys0) :=
      fun lib2 items2 h2 it2 hit2 =>
        hH lib2 items2 (List.mem_cons_of_mem _ h2) it2 hit2
    rw [allItemIds_cons] at hnd
    obtain ⟨hnd1, hnd2, hdisj⟩ := List.nodup_append.mp hnd
    rw [processLibs]
    have hflag1 : (processItems cfg lib items st).stats.batch_limit_reached =
        false := (processItems_nolimit_brk cfg lib hbl items st).2.trans hflag
    have hbrk1 : (processItems cfg lib items st).brk = false :=
      (processItems_nolimit_brk cfg lib hbl items st).1.trans hbrk
    rw [if_neg (by rw [hflag1]; simp)]
    rcases List.mem_cons.mp hpair with heq | hmem
    · have hl : lib' = lib := congrArg Prod.fst heq
      have hi : items' = items := congrArg Prod.snd heq
      subst hl
      subst hi
      exact posted_mono_processLibs cfg rest _ _
        (processItems_posted_nolimit cfg keys0 lib' hbl items' st hbrk
          hH_head hnd1 it hit hmn htm)
    · refine ih (processItems cfg lib items st) hbrk1 hflag1 ?_ hnd2
        lib' items' it hmem hit hmn htm
      intro lib2 items2 h2 it2 hit2
      constructor
      · intro hm2
        rcases ledgerKeys_bound_processItems cfg lib items st _ hm2 with
          h3 | h3
        · exact (hH_rest lib2 items2 h2 it2 hit2).mp h3
        · exact absurd (mem_allItemIds lib2 items2 it2 rest h2 hit2)
            (hdisj h3)
      · intro hk
        exact ledgerKeys_mono_processItems cfg lib items st _
          ((hH_rest lib2 items2 h2 it2 hit2).mpr hk)

/-- Claim C9 (implicit): a `batch_limit` of `None` or `0` disables the batch
cap entirely rather than meaning "submit nothing": the cap check never fires
(`batch_limit_reached` stays false, no break), and every eligible (usable TMDB
id) missing item of the snapshot is submitted. -/
theorem C9_falsy_limit_disables_cap (env : Env)
    (libs : List (String × List Item)) (bl : Option Nat) (loaded : Ledger)
    (pf : Bool) (hbl : truthyLimit bl = false)
    (hnd : (allItemIds libs).Nodup) :
    (restore_to_overseerr env libs bl pf loaded).stats.batch_limit_reached =
      false ∧
    (restore_to_overseerr env libs bl pf loaded).brk = false ∧
    (∀ p ∈ libs, ∀ it ∈ p.2,
      missingNew env (assocKeys (initState pf loaded).ledger) p.1 it = true →
      tmdbOk it = true →
      itemId p.1 it ∈ (restore_to_overseerr env libs bl pf loaded).postedIds)
    := by
  refine ⟨?_, ?_, ?_⟩
  · exact (processLibs_nolimit_brk ⟨env, bl, pf⟩ hbl libs
      (initState pf loaded)).2.trans rfl
  · exact (processLibs_nolimit_brk ⟨env, bl, pf⟩ hbl libs
      (initState pf loaded)).1.trans rfl
  · intro p hp it hit hmn htm
    exact processLibs_posted_nolimit ⟨env, bl, pf⟩
      (assocKeys (initState pf loaded).ledger) hbl libs
      (initState pf loaded) rfl rfl
      (fun lib' items' h' it' hit' => Iff.rfl) hnd p.1 p.2 it hp hit hmn htm

/-- A second missing movie for the batch-cap witness. -/
def wMovie2 : Item := ⟨"m2", "movie", "2", 0, none, false, some "22"⟩

/-- A one-library snapshot with two missing movies. -/
def wLibs : List (String × List Item) := [("L", [wMovie, wMovie2])]

/-- Witness for `C2_batch_cap`: two missing movies, cap 1. -/
theorem C2_batch_cap_witness :
    (1 ≤ 1) ∧
    ((allItemIds wLibs).Nodup) ∧
    (∀ p ∈ wLibs, ∀ it ∈ p.2, isMissing wEnv it = true →
      tmdbOk it = true ∧ submitOk wEnv (itemId p.1 it) = true) ∧
    (1 < (allMissingIds wEnv
      (assocKeys (initState true []).ledger) wLibs).length) ∧
    ((restore_to_overseerr wEnv wLibs (some 1) true
        []).stats.requests_created = 1 ∧
     (restore_to_overseerr wEnv wLibs (some 1) true
        []).stats.batch_limit_reached = true ∧
     (restore_to_overseerr wEnv wLibs (some 1) true []).createdIds =
       (allMissingIds wEnv (assocKeys (initState true []).ledger)
         wLibs).take 1 ∧
     (restore_to_overseerr wEnv wLibs (some 1) true []).postedIds =
       (allMissingIds wEnv (assocKeys (initState true []).ledger)
         wLibs).take 1) :=
  ⟨by decide, by decide, by decide, by decide,
    C2_batch_cap wEnv wLibs 1 [] true (by decide) (by decide) (by decide)
      (by decide)⟩

/-- Witness for `C9_falsy_limit_disables_cap`: `batch_limit = 0` with two
missing movies. -/
theorem C9_falsy_limit_disables_cap_witness :
    (truthyLimit (some 0) = false) ∧
    ((allItemIds wLibs).Nodup) ∧
    ((restore_to_overseerr wEnv wLibs (some 0) true
        []).stats.batch_limit_reached = false ∧
     (restore_to_overseerr wEnv wLibs (some 0) true []).brk = false ∧
     (∀ p ∈ wLibs, ∀ it ∈ p.2,
       missingNew wEnv (assocKeys (initState true []).ledger) p.1 it = true →
       tmdbOk it = true →
       itemId p.1 it ∈
         (restore_to_overseerr wEnv wLibs (some 0) true []).postedIds)) :=
  ⟨by decide, by decide,
    C9_falsy_limit_disables_cap wEnv wLibs (some 0) [] true (by decide)
      (by decide)⟩

/-- A show with 10 backed-up episodes, and a world whose live query reports 9
of them present. -/
def wShow : Item := ⟨"s1", "show", "5", 10, none, false, some "55"⟩

/-- World for the show witness: the live query answers 200 with `leafCount`
9. -/
def wEnvS : Env :=
  ⟨fun _ => PlexQueryResult.resp 200 (some 9), fun _ => FileCheck.found false,
   fun _ => ⟨HttpStep.resp 201 false, HttpStep.resp 201 false⟩, "2024-01-01"⟩

/-- Witness for `C5_show_missing_rule`: live 9 of 10 episodes → missing. -/
theorem C5_show_missing_rule_witness :
    (wShow.type = "show") ∧
    (assocGet (initState true []).ledger (itemId "T" wShow) = none) ∧
    (0 < wShow.episodes) ∧
    (((processItem ⟨wEnvS, none, true⟩ "T" wShow
        (initState true [])).stats.total_missing =
        (initState true []).stats.total_missing + 1 ↔
      currentEpisodes (wEnvS.plexQuery wShow.ratingKey) wShow.episodes <
        wShow.episodes) ∧
     ((processItem ⟨wEnvS, none, true⟩ "T" wShow
        (initState true [])).stats.already_exist =
        (initState true []).stats.already_exist + 1 ↔
      wShow.episodes ≤
        currentEpisodes (wEnvS.plexQuery wShow.ratingKey) wShow.episodes) ∧
     (wEnvS.plexQuery wShow.ratingKey = PlexQueryResult.raises →
       (processItem ⟨wEnvS, none, true⟩ "T" wShow
         (initState true [])).stats.total_missing =
         (initState true []).stats.total_missing ∧
       (processItem ⟨wEnvS, none, true⟩ "T" wShow
         (initState true [])).stats.already_exist =
         (initState true []).stats.already_exist + 1) ∧
     (processItem ⟨wEnvS, none, true⟩ "T" wShow
       (initState true [])).queriedIds =
       (initState true []).queriedIds ++ [itemId "T" wShow]) :=
  ⟨rfl, rfl, by decide,
    C5_show_missing_rule ⟨wEnvS, none, true⟩ "T" wShow (initState true [])
      rfl rfl (by decide)⟩

/-- A movie whose snapshot says `file_exists = false` but whose file is back
on disk. -/
def wMovieF : Item := ⟨"m3", "movie", "3", 0, some "/x/m3.mkv", false,
  some "33"⟩

/-- World for the movie witness: every filesystem check reports the file
present. -/
def wEnvF : Env :=
  ⟨fun _ => PlexQueryResult.raises, fun _ => FileCheck.found true,
   fun _ => ⟨HttpStep.resp 201 false, HttpStep.resp 201 false⟩, "2024-01-01"⟩

/-- Witness for `C6_movie_recheck`: snapshot-time `file_exists = false` is
overridden by the live check. -/
theorem C6_movie_recheck_witness :
    (wMovieF.type = "movie") ∧
    (assocGet (initState true []).ledger (itemId "L" wMovieF) = none) ∧
    (((processItem ⟨wEnvF, none, true⟩ "L" wMovieF
        (initState true [])).stats.total_missing =
        (initState true []).stats.total_missing + 1 ↔
      fileExistsNow wEnvF wMovieF = false) ∧
     (fileExistsNow wEnvF wMovieF = true ↔
       ∃ p, wMovieF.file_path = some p ∧ p ≠ "" ∧
         wEnvF.fileCheck p = FileCheck.found true) ∧
     (∀ (b1 b2 : Bool) (it2 : Item) (st2 : RState),
       processItem ⟨wEnvF, none, true⟩ "L" { it2 with file_exists := b1 }
         st2 =
       processItem ⟨wEnvF, none, true⟩ "L" { it2 with file_exists := b2 }
         st2) ∧
     (wMovieF.file_exists = false → fileExistsNow wEnvF wMovieF = true →
       (processItem ⟨wEnvF, none, true⟩ "L" wMovieF
         (initState true [])).stats.already_exist =
         (initState true []).stats.already_exist + 1 ∧
       (processItem ⟨wEnvF, none, true⟩ "L" wMovieF
         (initState true [])).stats.total_missing =
         (initState true []).stats.total_missing)) :=
  ⟨rfl, rfl,
    C6_movie_recheck ⟨wEnvF, none, true⟩ "L" wMovieF (initState true [])
      rfl rfl⟩

/-- World for the failed-submission witness: the POST settles on HTTP 500. -/
def wEnvX : Env :=
  ⟨fun _ => PlexQueryResult.raises, fun _ => FileCheck.found false,
   fun _ => ⟨HttpStep.resp 500 false, HttpStep.resp 201 false⟩, "2024-01-01"⟩

/-- Witness for `C10_failed_submit`: a missing movie whose POST returns 500 is
counted skipped, not errored, and left out of the ledger. -/
theorem C10_failed_submit_witness :
    (assocGet (initState true []).ledger (itemId "L" wMovie) = none) ∧
    (isMissing wEnvX wMovie = true) ∧
    (¬(truthyLimit (none : Option Nat) = true ∧
      (none : Option Nat).getD 0 ≤ (initState true []).batch)) ∧
    (truthyStr wMovie.tmdb_id = true) ∧
    ((pyInt? (wMovie.tmdb_id.getD "")).isSome = true) ∧
    (effectiveSubmit (wEnvX.submit (itemId "L" wMovie)) =
      SubmitOutcome.status 500) ∧
    (¬(500 = 200 ∨ 500 = 201 ∨ 500 = 202)) ∧
    ((processItem ⟨wEnvX, none, true⟩ "L" wMovie
        (initState true [])).stats.requests_skipped =
       (initState true []).stats.requests_skipped + 1 ∧
     (processItem ⟨wEnvX, none, true⟩ "L" wMovie
        (initState true [])).stats.errors = (initState true []).stats.errors ∧
     (processItem ⟨wEnvX, none, true⟩ "L" wMovie
        (initState true [])).stats.requests_created =
       (initState true []).stats.requests_created ∧
     (processItem ⟨wEnvX, none, true⟩ "L" wMovie
        (initState true [])).ledger = (initState true []).ledger ∧
     (processItem ⟨wEnvX, none, true⟩ "L" wMovie
        (initState true [])).createdIds = (initState true []).createdIds ∧
     assocGet (processItem ⟨wEnvX, none, true⟩ "L" wMovie
        (initState true [])).ledger (itemId "L" wMovie) = none) :=
  ⟨rfl, by decide, by decide, by decide, by decide, by decide, by decide,
    C10_failed_submit ⟨wEnvX, none, true⟩ "L" wMovie (initState true []) 500
      rfl (by decide) (by decide) (by decide) (by decide) (by decide)
      (by decide)⟩

end POB
